import Mathlib

/-!
Verification of the causal synchronization core of a collaborative
mind-map server.  The definitions below are a shallow embedding of the
JavaScript sources: the vector-clock service, the graph helper
functions, the merge engine, the operation-log catch-up query and the
rollback engine.  Persistence (mongoose documents) is modelled as plain
records held in lists inside a state record; asynchronous calls are
sequentialized, which matches the per-map critical-section discipline
of the design.  Machinery that the sources reference but that is not
present in the repository (the full Operation model) is modelled from
the specification and marked as such in the doc comments.
-/

set_option maxRecDepth 10000

/-! ## String helpers: JavaScript String.prototype.includes and truthiness -/

/-- Does the character list start with the pattern? -/
def charsStart : List Char → List Char → Bool
  | _, [] => true
  | [], _ :: _ => false
  | c :: cs, d :: ds => c == d && charsStart cs ds

/-- Does the character list contain the pattern as a contiguous run? -/
def charsContains (l pat : List Char) : Bool :=
  match l with
  | [] => charsStart [] pat
  | _ :: cs => charsStart l pat || charsContains cs pat

/-- JavaScript s.includes(pat): substring test, embedded over the
character data of the strings. -/
def strContains (s pat : String) : Bool :=
  charsContains s.data pat.data

/-- JavaScript truthiness of an optional string: undefined and the
empty string are falsy. -/
def jsTruthy : Option String → Bool
  | some s => !(s == "")
  | none => false

/-- JavaScript a || b over optional strings, with empty-string falsiness. -/
def jsOrStr (a b : Option String) : Option String :=
  if jsTruthy a then a else b

/-! ## Vector clocks

A vector clock is a finite mapping from client identifiers to counters.
JavaScript stores them as Map/plain objects, whose keys are unique; we
embed them as association lists and state the uniqueness where a proof
needs it. -/

/-- A vector clock: association list from client id to counter. -/
abbrev VC := List (String × Nat)

/-- Reading a key; an absent key reads as 0, matching the pervasive
`clock[user] || 0` in the sources. -/
def vcGet (c : VC) (k : String) : Nat :=
  ((c.find? (fun p => p.1 == k)).map Prod.snd).getD 0

/-- Keys of a clock. -/
def vcKeys (c : VC) : List String := c.map Prod.fst

/-- The union of the key sets of two clocks, as both compare functions
build it (a Set over the concatenated key lists). -/
def vcAllKeys (a b : VC) : List String := (vcKeys a ++ vcKeys b).dedup

/-- The keys of the clock are pairwise distinct, as they are for a
JavaScript Map or object. -/
def vcNodup (c : VC) : Prop := (vcKeys c).Nodup

instance (c : VC) : Decidable (vcNodup c) := by
  unfold vcNodup; infer_instance

/-- Map.prototype.set semantics: overwrite the entry when the key is
present, append it otherwise. -/
def vcSet (c : VC) (k : String) (v : Nat) : VC :=
  if c.any (fun p => p.1 == k) then
    c.map (fun p => if p.1 == k then (p.1, v) else p)
  else
    c ++ [(k, v)]

/-- Outcome of VectorClockService.compare. -/
inductive ClockCmp where
  | before
  | after
  | concurrent
  | equal
deriving DecidableEq

namespace VectorClockService

/-- server/src/services/vectorClock.js compare: scan the union of the
key sets, record whether either clock exceeds the other somewhere, and
classify. -/
def compare (clock1 clock2 : VC) : ClockCmp :=
  let allClients := vcAllKeys clock1 clock2
  let clock1Greater := allClients.any (fun k => vcGet clock2 k < vcGet clock1 k)
  let clock2Greater := allClients.any (fun k => vcGet clock1 k < vcGet clock2 k)
  if clock1Greater && clock2Greater then .concurrent
  else if clock1Greater then .after
  else if clock2Greater then .before
  else .equal

/-- server/src/services/vectorClock.js merge: copy clock1, then fold the
entries of clock2 in, taking the per-key maximum. -/
def merge (clock1 clock2 : VC) : VC :=
  clock2.foldl (fun merged kv => vcSet merged kv.1 (max (vcGet merged kv.1) kv.2)) clock1

end VectorClockService

/-! ### Facts about vcGet / vcSet / merge -/

theorem vcGet_cons (p : String × Nat) (ps : VC) (k : String) :
    vcGet (p :: ps) k = if p.1 == k then p.2 else vcGet ps k := by
  unfold vcGet
  cases h : (p.1 == k) <;> simp [List.find?, h]

theorem vcGet_nil (k : String) : vcGet [] k = 0 := rfl

theorem vcGet_map_update_same (c : VC) (k : String) (v : Nat)
    (h : c.any (fun p => p.1 == k) = true) :
    vcGet (c.map (fun p => if p.1 == k then (p.1, v) else p)) k = v := by
  induction c with
  | nil => simp at h
  | cons p ps ih =>
    by_cases hpk : (p.1 == k) = true
    · simp only [List.map_cons, if_pos hpk, vcGet_cons, hpk, if_pos]
    · have h' : ps.any (fun p => p.1 == k) = true := by
        simp only [List.any_cons] at h
        rcases Bool.or_eq_true_iff.mp h with h1 | h1
        · exact absurd h1 hpk
        · exact h1
      simp only [List.map_cons, if_neg hpk, vcGet_cons, hpk, if_neg, Bool.false_eq_true,
        not_false_iff]
      exact ih h'

theorem vcGet_map_update_other (c : VC) (k k' : String) (v : Nat) (hne : k' ≠ k) :
    vcGet (c.map (fun p => if p.1 == k then (p.1, v) else p)) k' = vcGet c k' := by
  induction c with
  | nil => rfl
  | cons p ps ih =>
    by_cases hpk : (p.1 == k) = true
    · have hp1 : p.1 = k := by simpa using hpk
      have hpk' : (p.1 == k') = false := by
        simp only [beq_eq_false_iff_ne, ne_eq, hp1]
        intro he; exact hne he.symm
      simp only [List.map_cons, if_pos hpk, vcGet_cons, hpk', Bool.false_eq_true, if_neg,
        not_false_iff]
      exact ih
    · simp only [List.map_cons, if_neg hpk, vcGet_cons]
      by_cases hq : (p.1 == k') = true
      · simp [hq]
      · simp only [hq, Bool.false_eq_true, if_neg, not_false_iff]
        exact ih

theorem vcGet_append_new_same (c : VC) (k : String) (v : Nat)
    (h : c.any (fun p => p.1 == k) = false) :
    vcGet (c ++ [(k, v)]) k = v := by
  induction c with
  | nil => simp [vcGet_cons]
  | cons p ps ih =>
    simp only [List.any_cons, Bool.or_eq_false_iff] at h
    simp only [List.cons_append, vcGet_cons, h.1, Bool.false_eq_true, if_neg, not_false_iff]
    exact ih h.2

theorem vcGet_append_new_other (c : VC) (k k' : String) (v : Nat) (hne : k' ≠ k) :
    vcGet (c ++ [(k, v)]) k' = vcGet c k' := by
  induction c with
  | nil =>
    have : (k == k') = false := by
      simp only [beq_eq_false_iff_ne, ne_eq]
      intro he; exact hne he.symm
    simp [vcGet_cons, this, vcGet_nil]
  | cons p ps ih =>
    simp only [List.cons_append, vcGet_cons]
    by_cases hq : (p.1 == k') = true
    · simp [hq]
    · simp only [hq, Bool.false_eq_true, if_neg, not_false_iff]
      exact ih

theorem vcGet_vcSet_same (c : VC) (k : String) (v : Nat) :
    vcGet (vcSet c k v) k = v := by
  unfold vcSet
  by_cases h : c.any (fun p => p.1 == k) = true
  · rw [if_pos h]
    exact vcGet_map_update_same c k v h
  · rw [if_neg h]
    exact vcGet_append_new_same c k v (by simp only [Bool.not_eq_true] at h; exact h)

theorem vcGet_vcSet_other (c : VC) (k k' : String) (v : Nat) (hne : k' ≠ k) :
    vcGet (vcSet c k v) k' = vcGet c k' := by
  unfold vcSet
  by_cases h : c.any (fun p => p.1 == k) = true
  · rw [if_pos h]
    exact vcGet_map_update_other c k k' v hne
  · rw [if_neg h]
    exact vcGet_append_new_other c k k' v hne

theorem vcGet_eq_zero_of_not_mem (c : VC) (k : String) (h : k ∉ vcKeys c) :
    vcGet c k = 0 := by
  induction c with
  | nil => rfl
  | cons p ps ih =>
    simp only [vcKeys, List.map_cons, List.mem_cons, not_or] at h
    have hp : (p.1 == k) = false := by
      simp only [beq_eq_false_iff_ne, ne_eq]
      intro he; exact h.1 he.symm
    simp only [vcGet_cons, hp, Bool.false_eq_true, if_neg, not_false_iff]
    exact ih (by simpa [vcKeys] using h.2)

/-- Pointwise description of VectorClockService.merge: per-key maximum,
provided the second clock has no duplicate keys (a JavaScript Map never
has). -/
theorem vcGet_merge (a b : VC) (hb : vcNodup b) (k : String) :
    vcGet (VectorClockService.merge a b) k = max (vcGet a k) (vcGet b k) := by
  induction b generalizing a with
  | nil => simp [VectorClockService.merge, vcGet_nil]
  | cons kv bs ih =>
    have hcons : (kv.1 :: vcKeys bs).Nodup := by
      simpa [vcNodup, vcKeys] using hb
    have hnd : vcNodup bs := (List.nodup_cons.mp hcons).2
    have hkey : kv.1 ∉ vcKeys bs := (List.nodup_cons.mp hcons).1
    show vcGet (VectorClockService.merge (vcSet a kv.1 (max (vcGet a kv.1) kv.2)) bs) k = _
    rw [ih _ hnd]
    by_cases hk : k = kv.1
    · subst hk
      rw [vcGet_vcSet_same, vcGet_eq_zero_of_not_mem bs kv.1 hkey, vcGet_cons]
      simp [Nat.max_assoc]
    · rw [vcGet_vcSet_other a kv.1 k _ hk, vcGet_cons]
      have hne : (kv.1 == k) = false := by
        simp only [beq_eq_false_iff_ne, ne_eq]
        intro he; exact hk he.symm
      simp [hne]

/-- Membership in the shared key union is symmetric. -/
theorem mem_vcAllKeys_comm (a b : VC) (k : String) :
    k ∈ vcAllKeys a b ↔ k ∈ vcAllKeys b a := by
  simp only [vcAllKeys, List.mem_dedup, List.mem_append]
  exact Or.comm

theorem any_vcAllKeys_comm (a b : VC) (f : String → Bool) :
    (vcAllKeys a b).any f = (vcAllKeys b a).any f := by
  by_cases h : ∃ k ∈ vcAllKeys a b, f k
  · have h' : ∃ k ∈ vcAllKeys b a, f k := by
      obtain ⟨k, hk, hf⟩ := h
      exact ⟨k, (mem_vcAllKeys_comm a b k).mp hk, hf⟩
    rw [List.any_eq_true.mpr (by simpa using h), List.any_eq_true.mpr (by simpa using h')]
  · have h' : ¬∃ k ∈ vcAllKeys b a, f k := by
      intro ⟨k, hk, hf⟩
      exact h ⟨k, (mem_vcAllKeys_comm a b k).mpr hk, hf⟩
    rw [List.any_eq_false.mpr (by simpa using h), List.any_eq_false.mpr (by simpa using h')]

/-- C8: vector clock compare is antisymmetric (after of one order is
before of the other) and merge is commutative as a key-to-counter
mapping; commutativity assumes each clock has unique keys, which is
forced for JavaScript Map objects. -/
theorem compare_antisymm_and_merge_comm :
    (∀ a b : VC,
      (VectorClockService.compare a b = .after ↔ VectorClockService.compare b a = .before)) ∧
    (∀ a b : VC, vcNodup a → vcNodup b → ∀ k : String,
      vcGet (VectorClockService.merge a b) k = vcGet (VectorClockService.merge b a) k) := by
  constructor
  · intro a b
    have hd : ∀ x y : VC, VectorClockService.compare x y =
        (if ((vcAllKeys x y).any fun k => decide (vcGet y k < vcGet x k)) &&
            ((vcAllKeys x y).any fun k => decide (vcGet x k < vcGet y k)) then ClockCmp.concurrent
         else if (vcAllKeys x y).any fun k => decide (vcGet y k < vcGet x k) then ClockCmp.after
         else if (vcAllKeys x y).any fun k => decide (vcGet x k < vcGet y k) then ClockCmp.before
         else ClockCmp.equal) := fun _ _ => rfl
    rw [hd a b, hd b a,
        ← any_vcAllKeys_comm a b (fun k => decide (vcGet a k < vcGet b k)),
        ← any_vcAllKeys_comm a b (fun k => decide (vcGet b k < vcGet a k))]
    cases h1 : (vcAllKeys a b).any (fun k => decide (vcGet b k < vcGet a k)) <;>
      cases h2 : (vcAllKeys a b).any (fun k => decide (vcGet a k < vcGet b k)) <;> simp
  · intro a b ha hb k
    rw [vcGet_merge a b hb k, vcGet_merge b a ha k, Nat.max_comm]

/-- Witness for C8 at concrete clocks. -/
theorem compare_antisymm_and_merge_comm_witness :
    (VectorClockService.compare [("X", 2)] [("Y", 1)] = .after ↔
      VectorClockService.compare [("Y", 1)] [("X", 2)] = .before) ∧
    vcGet (VectorClockService.merge [("X", 2)] [("Y", 1)]) "X" =
      vcGet (VectorClockService.merge [("Y", 1)] [("X", 2)]) "X" :=
  ⟨compare_antisymm_and_merge_comm.1 [("X", 2)] [("Y", 1)],
   compare_antisymm_and_merge_comm.2 [("X", 2)] [("Y", 1)] (by decide) (by decide) "X"⟩

/-! ## Graph helpers (server/src/utils/graphHelpers.js)

An adjacency list is a JavaScript object mapping a node id to the list
of its successor ids; we embed it as an association list whose keys are
unique (object keys always are).  Edges are the records that
buildReverseAdjacencyList consumes. -/

/-- An adjacency list. -/
abbrev Adj := List (String × List String)

/-- Reading adjList[k]: the value at a key, if present. -/
def adjGet (adj : Adj) (k : String) : Option (List String) :=
  (adj.find? (fun p => p.1 == k)).map Prod.snd

/-- Object.keys(adjList). -/
def adjKeys (adj : Adj) : List String := adj.map Prod.fst

/-- An edge record as consumed by buildReverseAdjacencyList. -/
structure HEdge where
  sourceId : String
  targetId : String
  isDeleted : Bool
deriving DecidableEq

/-- graphHelpers.buildReverseAdjacencyList: initialize every node with
an empty parent list, then push edge.sourceId onto the entry of
edge.targetId for every non-deleted edge whose target has an entry
(an empty array is truthy in JavaScript, so the guard is key
existence).  Nodes are passed by id. -/
def revStep (reverseList : Adj) (e : HEdge) : Adj :=
  if !e.isDeleted && reverseList.any (fun p => p.1 == e.targetId) then
    reverseList.map (fun p => if p.1 == e.targetId then (p.1, p.2 ++ [e.sourceId]) else p)
  else reverseList

def buildReverseAdjacencyList (nodes : List String) (edges : List HEdge) : Adj :=
  edges.foldl revStep (nodes.map (fun n => (n, [])))

/-- reverseAdjList[current] || [] as findAncestors reads it. -/
def parentsOf (radj : Adj) (c : String) : List String := (adjGet radj c).getD []

/-- One iteration of the for-loop inside findAncestors: skip a parent
already recorded, otherwise record it and enqueue it. -/
def scanStep (st : List String × List String) (p : String) : List String × List String :=
  if st.1.contains p then st else (st.1 ++ [p], st.2 ++ [p])

/-- The for-loop of findAncestors over one parent list: returns the
grown ancestor set and the newly enqueued nodes. -/
def scanParents (ancestors parents : List String) : List String × List String :=
  parents.foldl scanStep (ancestors, [])

/-- The sublist of parents that are new relative to the growing
ancestor set (recursive characterization of scanParents). -/
def newOnes (anc : List String) : List String → List String
  | [] => []
  | p :: ps => if anc.contains p then newOnes anc ps else p :: newOnes (anc ++ [p]) ps

theorem scanStep_foldl (ps : List String) :
    ∀ anc q : List String,
      ps.foldl scanStep (anc, q) = (anc ++ newOnes anc ps, q ++ newOnes anc ps) := by
  induction ps with
  | nil => intro anc q; simp [newOnes]
  | cons p ps ih =>
    intro anc q
    by_cases h : p ∈ anc
    · have hc : anc.contains p = true := by
        simpa using h
      rw [List.foldl_cons]
      show (ps.foldl scanStep (scanStep (anc, q) p)) = _
      rw [show scanStep (anc, q) p = (anc, q) by simp [scanStep, h]]
      rw [show newOnes anc (p :: ps) = newOnes anc ps by simp [newOnes, h]]
      exact ih anc q
    · have hc : anc.contains p = false := by
        simpa using h
      rw [List.foldl_cons]
      show (ps.foldl scanStep (scanStep (anc, q) p)) = _
      rw [show scanStep (anc, q) p = (anc ++ [p], q ++ [p]) by simp [scanStep, h]]
      rw [show newOnes anc (p :: ps) = p :: newOnes (anc ++ [p]) ps by simp [newOnes, h]]
      rw [ih (anc ++ [p]) (q ++ [p])]
      simp only [List.append_assoc, List.singleton_append]

theorem scanParents_eq (anc ps : List String) :
    scanParents anc ps = (anc ++ newOnes anc ps, newOnes anc ps) := by
  unfold scanParents
  rw [scanStep_foldl]
  simp

theorem contains_iff_mem (l : List String) (x : String) :
    l.contains x = true ↔ x ∈ l := by
  simp

theorem mem_newOnes (anc ps : List String) (x : String) (h : x ∈ newOnes anc ps) :
    x ∈ ps ∧ x ∉ anc := by
  induction ps generalizing anc with
  | nil => simp [newOnes] at h
  | cons p ps ih =>
    by_cases hc : p ∈ anc
    · rw [show newOnes anc (p :: ps) = newOnes anc ps by simp [newOnes, hc]] at h
      have := ih anc h
      exact ⟨List.mem_cons_of_mem _ this.1, this.2⟩
    · rw [show newOnes anc (p :: ps) = p :: newOnes (anc ++ [p]) ps by
        simp [newOnes, hc]] at h
      rcases List.mem_cons.mp h with h | h
      · subst h
        exact ⟨List.mem_cons_self _ _, hc⟩
      · have := ih (anc ++ [p]) h
        refine ⟨List.mem_cons_of_mem _ this.1, fun hx => this.2 ?_⟩
        exact List.mem_append_left _ hx

theorem newOnes_complete (anc ps : List String) (x : String) (h : x ∈ ps) :
    x ∈ anc ∨ x ∈ newOnes anc ps := by
  induction ps generalizing anc with
  | nil => simp at h
  | cons p ps ih =>
    by_cases hc : p ∈ anc
    · rw [show newOnes anc (p :: ps) = newOnes anc ps by simp [newOnes, hc]]
      rcases List.mem_cons.mp h with h | h
      · subst h; exact Or.inl hc
      · exact ih anc h
    · rw [show newOnes anc (p :: ps) = p :: newOnes (anc ++ [p]) ps by
        simp [newOnes, hc]]
      rcases List.mem_cons.mp h with h | h
      · subst h
        exact Or.inr (List.mem_cons_self _ _)
      · rcases ih (anc ++ [p]) h with h' | h'
        · rcases List.mem_append.mp h' with h'' | h''
          · exact Or.inl h''
          · simp only [List.mem_singleton] at h''
            subst h''
            exact Or.inr (List.mem_cons_self _ _)
        · exact Or.inr (List.mem_cons_of_mem _ h')

/-- All values stored in the adjacency list. -/
def adjVals (radj : Adj) : List String := radj.foldr (fun p acc => p.2 ++ acc) []

/-- All node ids mentioned in the adjacency list (keys and values). -/
def adjUniv (radj : Adj) : List String := (radj.map Prod.fst ++ adjVals radj).dedup

/-- How many mentioned ids are not yet recorded as ancestors; the
primary termination measure of the BFS. -/
def remainingCount (radj : Adj) (anc : List String) : Nat :=
  ((adjUniv radj).filter (fun x => !anc.contains x)).length

theorem mem_adjVals (radj : Adj) (pr : String × List String) (x : String)
    (hpr : pr ∈ radj) (hx : x ∈ pr.2) : x ∈ adjVals radj := by
  induction radj with
  | nil => simp at hpr
  | cons q qs ih =>
    rcases List.mem_cons.mp hpr with h | h
    · subst h
      exact List.mem_append_left _ hx
    · exact List.mem_append_right _ (ih h)

theorem mem_parentsOf_univ (radj : Adj) (c x : String) (h : x ∈ parentsOf radj c) :
    x ∈ adjUniv radj := by
  unfold parentsOf adjGet at h
  cases hf : radj.find? (fun p => p.1 == c) with
  | none => simp [hf] at h
  | some pr =>
    simp only [hf, Option.map_some', Option.getD_some] at h
    have hmem : pr ∈ radj := List.mem_of_find?_eq_some hf
    unfold adjUniv
    exact List.mem_dedup.mpr (List.mem_append_right _ (mem_adjVals radj pr x hmem h))

theorem filter_length_le {α : Type} (l : List α) (p q : α → Bool)
    (himp : ∀ x, q x = true → p x = true) :
    (l.filter q).length ≤ (l.filter p).length := by
  induction l with
  | nil => simp
  | cons a as ih =>
    by_cases hq : q a = true
    · simp [List.filter_cons, hq, himp a hq, Nat.succ_le_succ ih]
    · have hq' : q a = false := by simpa using hq
      by_cases hp : p a = true
      · simp only [List.filter_cons, hq', hp, if_pos, Bool.false_eq_true, if_neg,
          not_false_iff, List.length_cons]
        exact Nat.le_succ_of_le ih
      · have hp' : p a = false := by simpa using hp
        simp only [List.filter_cons, hq', hp', Bool.false_eq_true, if_neg, not_false_iff]
        exact ih

theorem filter_length_lt {α : Type} (l : List α) (p q : α → Bool)
    (himp : ∀ x, q x = true → p x = true)
    (x0 : α) (hx : x0 ∈ l) (hpx : p x0 = true) (hqx : q x0 = false) :
    (l.filter q).length < (l.filter p).length := by
  induction l with
  | nil => simp at hx
  | cons a as ih =>
    rcases List.mem_cons.mp hx with h | h
    · subst h
      simp only [List.filter_cons, hqx, hpx, if_pos, Bool.false_eq_true, if_neg,
        not_false_iff, List.length_cons]
      exact Nat.lt_succ_of_le (filter_length_le as p q himp)
    · by_cases hq : q a = true
      · simp [List.filter_cons, hq, himp a hq, Nat.succ_lt_succ (ih h)]
      · have hq' : q a = false := by simpa using hq
        by_cases hp : p a = true
        · simp only [List.filter_cons, hq', hp, if_pos, Bool.false_eq_true, if_neg,
            not_false_iff, List.length_cons]
          exact Nat.lt_succ_of_le (Nat.le_of_lt (ih h))
        · have hp' : p a = false := by simpa using hp
          simp only [List.filter_cons, hq', hp', Bool.false_eq_true, if_neg, not_false_iff]
          exact ih h

theorem remainingCount_lt (radj : Adj) (anc ext : List String) (x0 : String)
    (hx : x0 ∈ adjUniv radj) (hnot : x0 ∉ anc) (hin : x0 ∈ ext) :
    remainingCount radj (anc ++ ext) < remainingCount radj anc := by
  apply filter_length_lt (adjUniv radj)
    (fun x => !anc.contains x) (fun x => !(anc ++ ext).contains x)
  · intro x hq
    simp only [Bool.not_eq_true'] at hq ⊢
    cases hcc : anc.contains x with
    | false => rfl
    | true =>
      exfalso
      have hx2 : x ∈ anc ++ ext := List.mem_append_left _ ((contains_iff_mem _ _).mp hcc)
      rw [(contains_iff_mem _ _).mpr hx2] at hq
      cases hq
  · exact hx
  · simp only [Bool.not_eq_true']
    cases hcc : anc.contains x0 with
    | false => rfl
    | true => exact absurd ((contains_iff_mem _ _).mp hcc) hnot
  · have hc : (anc ++ ext).contains x0 = true :=
      (contains_iff_mem _ _).mpr (List.mem_append_right _ hin)
    show (!(anc ++ ext).contains x0) = false
    rw [hc]
    rfl

/-- The pair measure strictly decreases at each BFS iteration. -/
theorem findAncestors_dec (radj : Adj) (ancestors : List String) (current : String)
    (rest : List String) :
    Prod.Lex (· < ·) (· < ·)
      (remainingCount radj (scanParents ancestors (parentsOf radj current)).1,
        (rest ++ (scanParents ancestors (parentsOf radj current)).2).length)
      (remainingCount radj ancestors, (current :: rest).length) := by
  rw [scanParents_eq]
  show Prod.Lex (· < ·) (· < ·)
    (remainingCount radj (ancestors ++ newOnes ancestors (parentsOf radj current)),
      (rest ++ newOnes ancestors (parentsOf radj current)).length)
    (remainingCount radj ancestors, (current :: rest).length)
  rcases ht : newOnes ancestors (parentsOf radj current) with _ | ⟨x, t⟩
  · rw [List.append_nil, List.append_nil]
    apply Prod.Lex.right
    simp
  · apply Prod.Lex.left
    have hx : x ∈ newOnes ancestors (parentsOf radj current) := by rw [ht]; simp
    have hmem := mem_newOnes ancestors (parentsOf radj current) x hx
    exact remainingCount_lt radj ancestors (x :: t) x
      (mem_parentsOf_univ radj current x hmem.1) hmem.2 (List.mem_cons_self _ _)

/-- graphHelpers.findAncestors, inner while-loop: pop the queue head,
record its unseen parents and enqueue them, repeat until the queue is
empty. -/
def findAncestorsAux (radj : Adj) (ancestors queue : List String) : List String :=
  match queue with
  | [] => ancestors
  | current :: rest =>
    findAncestorsAux radj (scanParents ancestors (parentsOf radj current)).1
      (rest ++ (scanParents ancestors (parentsOf radj current)).2)
termination_by (remainingCount radj ancestors, queue.length)
decreasing_by
  exact findAncestors_dec _ _ _ _

/-- graphHelpers.findAncestors: BFS over the reverse adjacency list
starting from a node, collecting every node from which it is reachable. -/
def findAncestors (reverseAdjList : Adj) (nodeId : String) : List String :=
  findAncestorsAux reverseAdjList [] [nodeId]

/-- Object.entries(adjList).flatMap of wouldCreateCycle: every stored
pair becomes an edge record with isDeleted false. -/
def edgesOfAdj (adj : Adj) : List HEdge :=
  adj.foldr (fun p acc => (p.2.map (fun t => HEdge.mk p.1 t false)) ++ acc) []

/-- graphHelpers.wouldCreateCycle: true iff the target is already an
ancestor of the source in the adjacency graph, computed by
ancestor-reachability over the rebuilt reverse adjacency list. -/
def wouldCreateCycle (adjList : Adj) (sourceId targetId : String) : Bool :=
  (findAncestors
    (buildReverseAdjacencyList (adjKeys adjList) (edgesOfAdj adjList)) sourceId).contains
    targetId

/-! ### Correctness of findAncestors

AncPath radj c u holds when u is reachable from c by one or more
parent steps of the reverse adjacency list; findAncestors computes
exactly this relation. -/

/-- Nonempty chains of parent steps in a reverse adjacency list. -/
inductive AncPath (radj : Adj) : String → String → Prop where
  | base {c p : String} : p ∈ parentsOf radj c → AncPath radj c p
  | step {c p u : String} : p ∈ parentsOf radj c → AncPath radj p u → AncPath radj c u

theorem AncPath.trans {radj : Adj} {a b c : String}
    (h1 : AncPath radj a b) (h2 : AncPath radj b c) : AncPath radj a c := by
  induction h1 with
  | base hp => exact AncPath.step hp h2
  | step hp _ ih => exact AncPath.step hp (ih h2)

theorem AncPath.snoc {radj : Adj} {a b t : String}
    (h1 : AncPath radj a b) (h2 : t ∈ parentsOf radj b) : AncPath radj a t :=
  h1.trans (AncPath.base h2)

theorem findAncestorsAux_nil (radj : Adj) (anc : List String) :
    findAncestorsAux radj anc [] = anc := by
  rw [findAncestorsAux]

theorem findAncestorsAux_cons (radj : Adj) (anc : List String) (current : String)
    (rest : List String) :
    findAncestorsAux radj anc (current :: rest) =
      findAncestorsAux radj (scanParents anc (parentsOf radj current)).1
        (rest ++ (scanParents anc (parentsOf radj current)).2) := by
  rw [findAncestorsAux]

/-- Everything recorded stays recorded, and the parents of every queued
node end up recorded. -/
theorem subset_findAncestorsAux (radj : Adj) :
    ∀ anc queue : List String,
      (∀ x ∈ anc, x ∈ findAncestorsAux radj anc queue) ∧
      (∀ c ∈ queue, ∀ x ∈ parentsOf radj c, x ∈ findAncestorsAux radj anc queue) := by
  intro anc queue
  induction anc, queue using findAncestorsAux.induct radj with
  | case1 anc =>
    rw [findAncestorsAux_nil]
    exact ⟨fun x hx => hx, fun c hc => by simp at hc⟩
  | case2 anc p ps ih =>
    rw [findAncestorsAux_cons]
    have hst := scanParents_eq anc (parentsOf radj p)
    constructor
    · intro x hx
      apply ih.1
      rw [hst]
      exact List.mem_append_left _ hx
    · intro c hc x hx
      rcases List.mem_cons.mp hc with hc | hc
      · subst hc
        apply ih.1
        rw [hst]
        rcases newOnes_complete anc (parentsOf radj c) x hx with h | h
        · exact List.mem_append_left _ h
        · exact List.mem_append_right _ h
      · exact ih.2 c (List.mem_append_left _ hc) x hx

/-- The computed set is closed under parents, except possibly at the
initially seeded ancestors. -/
theorem findAncestorsAux_closed (radj : Adj) :
    ∀ anc queue : List String, ∀ x, x ∈ findAncestorsAux radj anc queue →
      x ∈ anc ∨ ∀ y ∈ parentsOf radj x, y ∈ findAncestorsAux radj anc queue := by
  intro anc queue
  induction anc, queue using findAncestorsAux.induct radj with
  | case1 anc =>
    intro x hx
    rw [findAncestorsAux_nil] at hx
    exact Or.inl hx
  | case2 anc p ps ih =>
    intro x hx
    rw [findAncestorsAux_cons] at hx ⊢
    have hst := scanParents_eq anc (parentsOf radj p)
    rcases ih x hx with h | h
    · rw [hst] at h
      rcases List.mem_append.mp h with h | h
      · exact Or.inl h
      · right
        intro y hy
        apply (subset_findAncestorsAux radj _ _).2 x _ y hy
        rw [hst]
        exact List.mem_append_right _ h
    · exact Or.inr h

/-- Everything computed is reachable by parent steps from a queued
node, unless it was seeded. -/
theorem findAncestorsAux_sound (radj : Adj) :
    ∀ anc queue : List String, ∀ x, x ∈ findAncestorsAux radj anc queue →
      x ∈ anc ∨ ∃ c ∈ queue, AncPath radj c x := by
  intro anc queue
  induction anc, queue using findAncestorsAux.induct radj with
  | case1 anc =>
    intro x hx
    rw [findAncestorsAux_nil] at hx
    exact Or.inl hx
  | case2 anc p ps ih =>
    intro x hx
    rw [findAncestorsAux_cons] at hx
    have hst := scanParents_eq anc (parentsOf radj p)
    rcases ih x hx with h | ⟨c, hc, hpath⟩
    · rw [hst] at h
      rcases List.mem_append.mp h with h | h
      · exact Or.inl h
      · right
        refine ⟨p, List.mem_cons_self _ _, AncPath.base ?_⟩
        exact (mem_newOnes anc (parentsOf radj p) x h).1
    · rw [hst] at hc
      rcases List.mem_append.mp hc with hc | hc
      · exact Or.inr ⟨c, List.mem_cons_of_mem _ hc, hpath⟩
      · right
        refine ⟨p, List.mem_cons_self _ _, AncPath.trans (AncPath.base ?_) hpath⟩
        exact (mem_newOnes anc (parentsOf radj p) c hc).1

/-- findAncestors computes exactly ancestor-reachability by one or more
parent steps. -/
theorem mem_findAncestors_iff (radj : Adj) (s x : String) :
    x ∈ findAncestors radj s ↔ AncPath radj s x := by
  constructor
  · intro hx
    rcases findAncestorsAux_sound radj [] [s] x hx with h | ⟨c, hc, hpath⟩
    · simp at h
    · simp only [List.mem_singleton] at hc
      subst hc
      exact hpath
  · intro hpath
    have hstart : ∀ y ∈ parentsOf radj s, y ∈ findAncestors radj s :=
      fun y hy => (subset_findAncestorsAux radj [] [s]).2 s (List.mem_singleton.mpr rfl) y hy
    have hclosed : ∀ x ∈ findAncestors radj s, ∀ y ∈ parentsOf radj x,
        y ∈ findAncestors radj s := by
      intro x hx y hy
      rcases findAncestorsAux_closed radj [] [s] x hx with h | h
      · simp at h
      · exact h y hy
    have hgen : ∀ a u, AncPath radj a u → (a = s ∨ a ∈ findAncestors radj s) →
        u ∈ findAncestors radj s := by
      intro a u hpath
      induction hpath with
      | base hp =>
        rintro (rfl | ha)
        · exact hstart _ hp
        · exact hclosed _ ha _ hp
      | step hp _ ih =>
        rename_i c q u hq
        rintro (rfl | ha)
        · exact ih (Or.inr (hstart _ hp))
        · exact ih (Or.inr (hclosed _ ha _ hp))
    exact hgen s x hpath (Or.inl rfl)

/-! ### From the reverse adjacency list back to the forward graph -/

/-- EdgeIn adj a b: the adjacency list records the edge a → b. -/
def EdgeIn (adj : Adj) (a b : String) : Prop :=
  ∃ l, adjGet adj a = some l ∧ b ∈ l

/-- Nonempty directed paths of the forward graph. -/
inductive GPath (adj : Adj) : String → String → Prop where
  | base {a b : String} : EdgeIn adj a b → GPath adj a b
  | step {a b c : String} : EdgeIn adj a b → GPath adj b c → GPath adj a c

theorem GPath.snocG {adj : Adj} {a b c : String}
    (h1 : GPath adj a b) (h2 : EdgeIn adj b c) : GPath adj a c := by
  induction h1 with
  | base he => exact GPath.step he (GPath.base h2)
  | step he _ ih => exact GPath.step he (ih h2)

/-- A well-formed adjacency representation of a graph: unique keys (a
JavaScript object cannot repeat keys) and every stored successor has
its own entry. -/
def WFAdj (adj : Adj) : Prop :=
  (adjKeys adj).Nodup ∧ ∀ pr ∈ adj, ∀ b ∈ pr.2, b ∈ adjKeys adj

instance (adj : Adj) : Decidable (WFAdj adj) := by
  unfold WFAdj
  exact instDecidableAnd

theorem adjGet_cons (p : String × List String) (ps : Adj) (c : String) :
    adjGet (p :: ps) c = if p.1 == c then some p.2 else adjGet ps c := by
  unfold adjGet
  cases h : (p.1 == c) <;> simp [List.find?, h]

theorem adjGet_map_push (rl : Adj) (t src c : String) :
    adjGet (rl.map (fun p => if p.1 == t then (p.1, p.2 ++ [src]) else p)) c =
      if t == c then (adjGet rl c).map (fun l => l ++ [src]) else adjGet rl c := by
  induction rl with
  | nil => cases h : (t == c) <;> simp [adjGet, h]
  | cons p ps ih =>
    by_cases hpt : (p.1 == t) = true
    · have hp1 : p.1 = t := by simpa using hpt
      by_cases hpc : (p.1 == c) = true
      · have htc : (t == c) = true := hp1 ▸ hpc
        have hhead : adjGet (p :: ps) c = some p.2 := by
          rw [adjGet_cons, if_pos hpc]
        rw [List.map_cons, if_pos hpt, adjGet_cons,
          if_pos (show ((p.1, p.2 ++ [src]).1 == c) = true from hpc), if_pos htc, hhead]
        rfl
      · have hpc' : (p.1 == c) = false := by simpa using hpc
        have htc : (t == c) = false := hp1 ▸ hpc'
        have hhead : adjGet (p :: ps) c = adjGet ps c := by
          rw [adjGet_cons, if_neg hpc]
        rw [List.map_cons, if_pos hpt, adjGet_cons,
          if_neg (show ¬((p.1, p.2 ++ [src]).1 == c) = true from hpc), ih, htc, hhead]
    · by_cases hpc : (p.1 == c) = true
      · have hp1 : p.1 = c := by simpa using hpc
        have htc : (t == c) = false := by
          apply beq_eq_false_iff_ne.mpr
          intro he
          exact hpt (by rw [hp1, he]; simp)
        have hhead : adjGet (p :: ps) c = some p.2 := by
          rw [adjGet_cons, if_pos hpc]
        rw [List.map_cons, if_neg hpt, adjGet_cons, if_pos hpc, htc, hhead,
          if_neg (by simp)]
      · have hhead : adjGet (p :: ps) c = adjGet ps c := by
          rw [adjGet_cons, if_neg hpc]
        rw [List.map_cons, if_neg hpt, adjGet_cons, if_neg hpc, ih, hhead]

theorem adjKeys_revStep (rl : Adj) (e : HEdge) : adjKeys (revStep rl e) = adjKeys rl := by
  unfold revStep
  split
  · unfold adjKeys
    rw [List.map_map]
    apply List.map_congr_left
    intro p _
    by_cases h : (p.1 == e.targetId) = true
    · simp [Function.comp, h]
    · simp [Function.comp, h]
  · rfl

theorem any_key_eq_of_keys_eq (rl rl' : Adj) (h : adjKeys rl = adjKeys rl') (x : String) :
    rl.any (fun p => p.1 == x) = rl'.any (fun p => p.1 == x) := by
  have h1 : ∀ m : Adj, (adjKeys m).any (fun k => k == x) = m.any (fun p => p.1 == x) := by
    intro m
    induction m with
    | nil => rfl
    | cons q qs ih =>
      show ((q.1 :: adjKeys qs).any fun k => k == x) = _
      rw [List.any_cons, List.any_cons, ih]
  rw [← h1, ← h1, h]

theorem adjGet_revStep (rl : Adj) (e : HEdge) (c : String) :
    adjGet (revStep rl e) c =
      if (!e.isDeleted && rl.any (fun p => p.1 == e.targetId)) && (e.targetId == c) then
        (adjGet rl c).map (fun l => l ++ [e.sourceId])
      else adjGet rl c := by
  unfold revStep
  by_cases hcond : (!e.isDeleted && rl.any (fun p => p.1 == e.targetId)) = true
  · rw [if_pos hcond, adjGet_map_push]
    by_cases htc : (e.targetId == c) = true
    · rw [if_pos htc, if_pos (by simp [hcond, htc])]
    · rw [if_neg htc, if_neg (by simp [htc])]
  · rw [if_neg hcond, if_neg (by simp [hcond])]

theorem adjGet_foldl_revStep (es : List HEdge) :
    ∀ (rl : Adj) (c : String),
      adjGet (es.foldl revStep rl) c =
        (adjGet rl c).map (fun l => l ++
          ((es.filter (fun e => (!e.isDeleted && rl.any (fun p => p.1 == e.targetId)) &&
            (e.targetId == c))).map (fun e => e.sourceId))) := by
  induction es with
  | nil =>
    intro rl c
    cases h : adjGet rl c <;> simp [h]
  | cons e es ih =>
    intro rl c
    rw [List.foldl_cons, ih (revStep rl e) c]
    have hfilter : (es.filter (fun e2 => (!e2.isDeleted &&
          (revStep rl e).any (fun p => p.1 == e2.targetId)) && (e2.targetId == c)))
        = es.filter (fun e2 => (!e2.isDeleted && rl.any (fun p => p.1 == e2.targetId)) &&
            (e2.targetId == c)) := by
      apply List.filter_congr
      intro e2 _
      rw [any_key_eq_of_keys_eq (revStep rl e) rl (adjKeys_revStep rl e) e2.targetId]
    rw [hfilter, adjGet_revStep]
    by_cases hcond : ((!e.isDeleted && rl.any (fun p => p.1 == e.targetId)) &&
        (e.targetId == c)) = true
    · rw [if_pos hcond, List.filter_cons, if_pos hcond]
      cases hg : adjGet rl c
      · rfl
      · simp [List.append_assoc]
    · rw [if_neg hcond, List.filter_cons, if_neg hcond]

theorem adjGet_init (nodes : List String) (c : String) :
    adjGet (nodes.map (fun n => (n, ([] : List String)))) c =
      if c ∈ nodes then some [] else none := by
  induction nodes with
  | nil => simp [adjGet]
  | cons n ns ih =>
    rw [List.map_cons, adjGet_cons]
    by_cases h : (n == c) = true
    · have hn : n = c := by simpa using h
      rw [if_pos h, if_pos (by rw [hn]; exact List.mem_cons_self _ _)]
    · have hne : c ≠ n := by
        intro he
        exact h (by rw [he]; simp)
      rw [if_neg h, ih]
      by_cases h2 : c ∈ ns
      · rw [if_pos h2, if_pos (List.mem_cons_of_mem _ h2)]
      · rw [if_neg h2, if_neg (by simp [List.mem_cons, hne, h2])]

theorem any_beq_iff_mem (l : List String) (x : String) :
    l.any (fun n => n == x) = true ↔ x ∈ l := by
  rw [List.any_eq_true]
  constructor
  · rintro ⟨n, hn, he⟩
    have : n = x := by simpa using he
    exact this ▸ hn
  · intro hx
    exact ⟨x, hx, by simp⟩

theorem any_init_key (nodes : List String) (x : String) :
    (nodes.map (fun n => (n, ([] : List String)))).any (fun q => q.1 == x) =
      nodes.any (fun n => n == x) := by
  induction nodes with
  | nil => rfl
  | cons n ns ih =>
    rw [List.map_cons, List.any_cons, List.any_cons, ih]

theorem mem_parentsOf_buildRev (nodes : List String) (edges : List HEdge) (c p : String) :
    p ∈ parentsOf (buildReverseAdjacencyList nodes edges) c ↔
      c ∈ nodes ∧ ∃ e ∈ edges, e.isDeleted = false ∧ e.targetId = c ∧ e.sourceId = p := by
  unfold buildReverseAdjacencyList parentsOf
  rw [adjGet_foldl_revStep, adjGet_init]
  by_cases hc : c ∈ nodes
  · rw [if_pos hc]
    simp only [Option.map_some', Option.getD_some, List.nil_append]
    constructor
    · intro hp
      rcases List.mem_map.mp hp with ⟨e, he, hsrc⟩
      have hf := List.mem_filter.mp he
      have hcond := hf.2
      rw [Bool.and_eq_true, Bool.and_eq_true] at hcond
      refine ⟨hc, e, hf.1, ?_, ?_, hsrc⟩
      · simpa using hcond.1.1
      · simpa using hcond.2
    · rintro ⟨-, e, he, hdel, htgt, hsrc⟩
      apply List.mem_map.mpr
      refine ⟨e, List.mem_filter.mpr ⟨he, ?_⟩, hsrc⟩
      have hany : (nodes.map (fun n => (n, ([] : List String)))).any
          (fun q => q.1 == e.targetId) = true := by
        rw [any_init_key, any_beq_iff_mem, htgt]
        exact hc
      rw [Bool.and_eq_true, Bool.and_eq_true]
      exact ⟨⟨by simp [hdel], hany⟩, by simp [htgt]⟩
  · rw [if_neg hc]
    simp [hc]

theorem mem_edgesOfAdj (adj : Adj) (e : HEdge) :
    e ∈ edgesOfAdj adj ↔ ∃ pr ∈ adj, ∃ t ∈ pr.2, e = HEdge.mk pr.1 t false := by
  induction adj with
  | nil => simp [edgesOfAdj]
  | cons q qs ih =>
    show e ∈ (q.2.map (fun t => HEdge.mk q.1 t false)) ++ edgesOfAdj qs ↔ _
    constructor
    · intro h
      rcases List.mem_append.mp h with h | h
      · rcases List.mem_map.mp h with ⟨t, ht, he⟩
        exact ⟨q, List.mem_cons_self _ _, t, ht, he.symm⟩
      · rcases ih.mp h with ⟨pr, hpr, t, ht, he⟩
        exact ⟨pr, List.mem_cons_of_mem _ hpr, t, ht, he⟩
    · rintro ⟨pr, hpr, t, ht, he⟩
      rcases List.mem_cons.mp hpr with h | h
      · subst h
        exact List.mem_append_left _ (List.mem_map.mpr ⟨t, ht, he.symm⟩)
      · exact List.mem_append_right _ (ih.mpr ⟨pr, h, t, ht, he⟩)

theorem adjGet_of_mem (adj : Adj) (hnd : (adjKeys adj).Nodup) (pr : String × List String)
    (hpr : pr ∈ adj) : adjGet adj pr.1 = some pr.2 := by
  induction adj with
  | nil => simp at hpr
  | cons q qs ih =>
    have hcons : (q.1 :: adjKeys qs).Nodup := by simpa [adjKeys] using hnd
    rcases List.mem_cons.mp hpr with h | h
    · subst h
      rw [adjGet_cons, if_pos (by simp)]
    · have hq : q.1 ∉ adjKeys qs := (List.nodup_cons.mp hcons).1
      have hne : (q.1 == pr.1) = false := by
        apply beq_eq_false_iff_ne.mpr
        intro he
        exact hq (he ▸ List.mem_map.mpr ⟨pr, h, rfl⟩)
      rw [adjGet_cons, if_neg (by simp [hne])]
      exact ih (List.nodup_cons.mp hcons).2 h

theorem mem_of_adjGet (adj : Adj) (a : String) (l : List String)
    (h : adjGet adj a = some l) : (a, l) ∈ adj := by
  induction adj with
  | nil => simp [adjGet] at h
  | cons q qs ih =>
    rw [adjGet_cons] at h
    by_cases hq : (q.1 == a) = true
    · rw [if_pos hq] at h
      have ha : q.1 = a := by simpa using hq
      have hl : q.2 = l := by injection h
      exact List.mem_cons.mpr (Or.inl (by rw [← ha, ← hl]))
    · rw [if_neg hq] at h
      exact List.mem_cons_of_mem _ (ih h)

theorem parentsOf_rev_iff (adj : Adj) (hwf : WFAdj adj) (c p : String) :
    p ∈ parentsOf (buildReverseAdjacencyList (adjKeys adj) (edgesOfAdj adj)) c ↔
      EdgeIn adj p c := by
  rw [mem_parentsOf_buildRev]
  constructor
  · rintro ⟨hc, e, he, hdel, htgt, hsrc⟩
    rcases (mem_edgesOfAdj adj e).mp he with ⟨pr, hpr, t, ht, heq⟩
    subst heq
    refine ⟨pr.2, ?_, ?_⟩
    · rw [show p = pr.1 from hsrc.symm]
      exact adjGet_of_mem adj hwf.1 pr hpr
    · rw [show c = t from htgt.symm]
      exact ht
  · rintro ⟨l, hget, hc⟩
    have hpr : (p, l) ∈ adj := mem_of_adjGet adj p l hget
    have hck : c ∈ adjKeys adj := hwf.2 (p, l) hpr c hc
    exact ⟨hck, HEdge.mk p c false, (mem_edgesOfAdj adj _).mpr ⟨(p, l), hpr, c, hc, rfl⟩,
      rfl, rfl, rfl⟩

theorem ancPath_rev_iff_gpath (adj : Adj) (hwf : WFAdj adj) (s u : String) :
    AncPath (buildReverseAdjacencyList (adjKeys adj) (edgesOfAdj adj)) s u ↔
      GPath adj u s := by
  constructor
  · intro h
    induction h with
    | base hp => exact GPath.base ((parentsOf_rev_iff adj hwf _ _).mp hp)
    | step hp _ ih => exact GPath.snocG ih ((parentsOf_rev_iff adj hwf _ _).mp hp)
  · intro h
    induction h with
    | base he => exact AncPath.base ((parentsOf_rev_iff adj hwf _ _).mpr he)
    | step he _ ih => exact AncPath.snoc ih ((parentsOf_rev_iff adj hwf _ _).mpr he)

/-- wouldCreateCycle decides ancestorhood: it is true exactly when the
target has a nonempty directed path to the source. -/
theorem wouldCreateCycle_iff_gpath (adj : Adj) (hwf : WFAdj adj) (s t : String) :
    wouldCreateCycle adj s t = true ↔ GPath adj t s := by
  unfold wouldCreateCycle
  rw [contains_iff_mem, mem_findAncestors_iff, ancPath_rev_iff_gpath adj hwf]

/-! ### Inserting the candidate edge, cycle freeness, and the C7 / C10 claims -/

/-- The candidate-edge insertion performed by the validator before the
cycle check: push the target onto the source entry, creating the entry
first when absent. -/
def insertEdge (adjList : Adj) (sourceId targetId : String) : Adj :=
  if adjList.any (fun p => p.1 == sourceId) then
    adjList.map (fun p => if p.1 == sourceId then (p.1, p.2 ++ [targetId]) else p)
  else adjList ++ [(sourceId, [targetId])]

theorem adjGet_isSome_of_any (adj : Adj) (k : String)
    (h : adj.any (fun p => p.1 == k) = true) : ∃ l, adjGet adj k = some l := by
  induction adj with
  | nil => simp at h
  | cons q qs ih =>
    by_cases hq : (q.1 == k) = true
    · exact ⟨q.2, by rw [adjGet_cons, if_pos hq]⟩
    · have h' : qs.any (fun p => p.1 == k) = true := by
        simp only [List.any_cons] at h
        rcases Bool.or_eq_true_iff.mp h with h1 | h1
        · exact absurd h1 hq
        · exact h1
      rcases ih h' with ⟨l, hl⟩
      exact ⟨l, by rw [adjGet_cons, if_neg hq]; exact hl⟩

theorem adjGet_eq_none_of_not_any (adj : Adj) (k : String)
    (h : adj.any (fun p => p.1 == k) = false) : adjGet adj k = none := by
  induction adj with
  | nil => rfl
  | cons q qs ih =>
    simp only [List.any_cons, Bool.or_eq_false_iff] at h
    rw [adjGet_cons, if_neg (by simp [h.1])]
    exact ih h.2

theorem adjGet_append_one (adj : Adj) (kv : String × List String) (c : String) :
    adjGet (adj ++ [kv]) c =
      match adjGet adj c with
      | some l => some l
      | none => if kv.1 == c then some kv.2 else none := by
  induction adj with
  | nil =>
    show adjGet [kv] c = _
    rw [adjGet_cons]
    rfl
  | cons q qs ih =>
    rw [List.cons_append, adjGet_cons, adjGet_cons]
    by_cases hq : (q.1 == c) = true
    · rw [if_pos hq, if_pos hq]
    · rw [if_neg hq, if_neg hq, ih]

theorem EdgeIn_insertEdge (adj : Adj) (s t x y : String) :
    EdgeIn (insertEdge adj s t) x y ↔ EdgeIn adj x y ∨ (x = s ∧ y = t) := by
  unfold insertEdge
  by_cases hany : adj.any (fun p => p.1 == s) = true
  · rw [if_pos hany]
    unfold EdgeIn
    rw [adjGet_map_push]
    by_cases hsx : (s == x) = true
    · have hx : s = x := by simpa using hsx
      rcases adjGet_isSome_of_any adj s hany with ⟨l, hl⟩
      have hlx : adjGet adj x = some l := hx ▸ hl
      rw [if_pos hsx, hlx]
      constructor
      · rintro ⟨l', hl', hy⟩
        simp only [Option.map_some'] at hl'
        have hll : l ++ [t] = l' := by injection hl'
        rw [← hll] at hy
        rcases List.mem_append.mp hy with hy | hy
        · exact Or.inl ⟨l, rfl, hy⟩
        · simp only [List.mem_singleton] at hy
          exact Or.inr ⟨hx.symm, hy⟩
      · rintro (⟨l', hl', hy⟩ | ⟨-, hy⟩)
        · have hll : l = l' := by injection hl'
          exact ⟨l ++ [t], by simp, List.mem_append_left _ (hll ▸ hy)⟩
        · exact ⟨l ++ [t], by simp, List.mem_append_right _ (List.mem_singleton.mpr hy)⟩
    · have hxs : x ≠ s := by
        intro he
        exact hsx (by rw [he]; simp)
      rw [if_neg hsx]
      constructor
      · exact fun h => Or.inl h
      · rintro (h | ⟨hxe, -⟩)
        · exact h
        · exact absurd hxe hxs
  · rw [if_neg hany]
    unfold EdgeIn
    rw [adjGet_append_one]
    by_cases hsx : (s == x) = true
    · have hx : s = x := by simpa using hsx
      have hnone : adjGet adj x = none := by
        rw [← hx]
        exact adjGet_eq_none_of_not_any adj s
          (by simp only [Bool.not_eq_true] at hany; exact hany)
      rw [hnone]
      constructor
      · rintro ⟨l', hl', hy⟩
        simp only [hsx, if_pos] at hl'
        have hll : [t] = l' := by injection hl'
        rw [← hll] at hy
        simp only [List.mem_singleton] at hy
        exact Or.inr ⟨hx.symm, hy⟩
      · rintro (⟨l', hl', hy⟩ | ⟨-, hy⟩)
        · cases hl'
        · exact ⟨[t], by simp [hsx], List.mem_singleton.mpr hy⟩
    · have hxs : x ≠ s := by
        intro he
        exact hsx (by rw [he]; simp)
      cases hg : adjGet adj x with
      | none =>
        constructor
        · rintro ⟨l', hl', hy⟩
          rw [if_neg hsx] at hl'
          cases hl'
        · rintro (⟨l', hl', hy⟩ | ⟨hxe, -⟩)
          · cases hl'
          · exact absurd hxe hxs
      | some l =>
        constructor
        · rintro ⟨l', hl', hy⟩
          have hll : l = l' := by injection hl'
          exact Or.inl ⟨l, rfl, hll ▸ hy⟩
        · rintro (⟨l', hl', hy⟩ | ⟨hxe, -⟩)
          · have hll : l' = l := by
              injection hl' with hq
              exact hq.symm
            exact ⟨l, rfl, hll ▸ hy⟩
          · exact absurd hxe hxs

theorem GPath.transG {adj : Adj} {a b c : String}
    (h1 : GPath adj a b) (h2 : GPath adj b c) : GPath adj a c := by
  induction h1 with
  | base he => exact GPath.step he h2
  | step he _ ih => exact GPath.step he (ih h2)

theorem GPath_mono_insert (adj : Adj) (s t a b : String) (h : GPath adj a b) :
    GPath (insertEdge adj s t) a b := by
  induction h with
  | base he => exact GPath.base ((EdgeIn_insertEdge adj s t _ _).mpr (Or.inl he))
  | step he _ ih => exact GPath.step ((EdgeIn_insertEdge adj s t _ _).mpr (Or.inl he)) ih

/-- The graph carries no directed cycle. -/
def CycleFree (adj : Adj) : Prop := ∀ v, ¬ GPath adj v v

theorem gpath_insert_decompose (adj : Adj) (s t x y : String)
    (h : GPath (insertEdge adj s t) x y) :
    GPath adj x y ∨ ((GPath adj x s ∨ x = s) ∧ (GPath adj t y ∨ t = y)) := by
  induction h with
  | base he =>
    rcases (EdgeIn_insertEdge adj s t _ _).mp he with he | ⟨hx, hy⟩
    · exact Or.inl (GPath.base he)
    · exact Or.inr ⟨Or.inr hx, Or.inr hy.symm⟩
  | step he htail ih =>
    rcases (EdgeIn_insertEdge adj s t _ _).mp he with he | ⟨hx, hb⟩
    · rcases ih with ih | ⟨ih1, ih2⟩
      · exact Or.inl (GPath.step he ih)
      · right
        refine ⟨?_, ih2⟩
        rcases ih1 with ih1 | ih1
        · exact Or.inl (GPath.step he ih1)
        · exact Or.inl (ih1 ▸ GPath.base he)
    · rcases ih with ih | ⟨ih1, ih2⟩
      · right
        refine ⟨Or.inr hx, Or.inl ?_⟩
        rw [← hb]
        exact ih
      · exact Or.inr ⟨Or.inr hx, ih2⟩

theorem insert_cycle_iff_ancestor (adj : Adj) (hacyc : CycleFree adj) (s t : String)
    (hne : s ≠ t) :
    (∃ v, GPath (insertEdge adj s t) v v) ↔ GPath adj t s := by
  constructor
  · rintro ⟨v, hv⟩
    rcases gpath_insert_decompose adj s t v v hv with h | ⟨h1, h2⟩
    · exact absurd h (hacyc v)
    · rcases h1 with h1 | h1 <;> rcases h2 with h2 | h2
      · exact h2.transG h1
      · subst h2
        exact h1
      · subst h1
        exact h2
      · subst h1
        exact absurd h2.symm hne
  · intro h
    refine ⟨s, GPath.step ?_ (GPath_mono_insert adj s t t s h)⟩
    exact (EdgeIn_insertEdge adj s t s t).mpr (Or.inr ⟨rfl, rfl⟩)

/-- The one-node graph with no edges, used to exhibit the self-loop
boundary case. -/
def adjSingle : Adj := [("a", [])]

/-- The two-node graph with the single edge a → b. -/
def adjPair : Adj := [("a", ["b"]), ("b", [])]

theorem adjSingle_no_edge (x y : String) : ¬ EdgeIn adjSingle x y := by
  rintro ⟨l, hget, hy⟩
  rw [show adjSingle = [("a", [])] from rfl, adjGet_cons] at hget
  by_cases h : (("a", ([] : List String)).1 == x) = true
  · rw [if_pos h] at hget
    injection hget with hl
    rw [← hl] at hy
    simp at hy
  · rw [if_neg h] at hget
    cases hget

theorem adjSingle_cycleFree : CycleFree adjSingle := by
  intro v hv
  cases hv with
  | base he => exact adjSingle_no_edge _ _ he
  | step he _ => exact adjSingle_no_edge _ _ he

theorem adjPair_edge_iff (x y : String) :
    EdgeIn adjPair x y ↔ x = "a" ∧ y = "b" := by
  constructor
  · rintro ⟨l, hget, hy⟩
    rw [show adjPair = [("a", ["b"]), ("b", [])] from rfl, adjGet_cons] at hget
    by_cases h : (("a", ["b"]).1 == x) = true
    · rw [if_pos h] at hget
      injection hget with hl
      rw [← hl] at hy
      simp only [List.mem_singleton] at hy
      have hax : "a" = x := by simpa using h
      exact ⟨hax.symm, hy⟩
    · rw [if_neg h, adjGet_cons] at hget
      by_cases h2 : (("b", ([] : List String)).1 == x) = true
      · rw [if_pos h2] at hget
        injection hget with hl
        rw [← hl] at hy
        simp at hy
      · rw [if_neg h2] at hget
        cases hget
  · rintro ⟨hx, hy⟩
    subst hx
    subst hy
    refine ⟨["b"], ?_, by simp⟩
    rw [show adjPair = [("a", ["b"]), ("b", [])] from rfl, adjGet_cons, if_pos (by simp)]

theorem adjPair_cycleFree : CycleFree adjPair := by
  have hb : ∀ y, ¬ GPath adjPair "b" y := by
    intro y hy
    cases hy with
    | base he =>
      have h := (adjPair_edge_iff _ _).mp he
      exact absurd h.1 (by decide)
    | step he _ =>
      have h := (adjPair_edge_iff _ _).mp he
      exact absurd h.1 (by decide)
  intro v hv
  cases hv with
  | base he =>
    have h := (adjPair_edge_iff _ _).mp he
    have h2 := h.2
    rw [h.1] at h2
    exact absurd h2 (by decide)
  | step he htail =>
    have h := (adjPair_edge_iff _ _).mp he
    rw [h.2] at htail
    rw [h.1] at htail
    exact hb _ htail

theorem adjPair_not_edge_ba : ¬ EdgeIn adjPair "b" "a" := by
  intro he
  exact absurd ((adjPair_edge_iff _ _).mp he).1 (by decide)

/-- C7 (amended with source ≠ target): on a well-formed cycle-free
adjacency graph, for a candidate edge (s, t) not already present with
s ≠ t, wouldCreateCycle is true exactly when t is an ancestor of s
(a nonempty path t ⇝ s exists), equivalently exactly when inserting
s → t creates a directed cycle. -/
theorem wouldCreateCycle_ancestor_cycle_spec (adj : Adj) (s t : String)
    (hwf : WFAdj adj) (hacyc : CycleFree adj) (hnotin : ¬ EdgeIn adj s t)
    (hne : s ≠ t) :
    (wouldCreateCycle adj s t = true ↔ GPath adj t s) ∧
    (wouldCreateCycle adj s t = true ↔ ∃ v, GPath (insertEdge adj s t) v v) := by
  refine ⟨wouldCreateCycle_iff_gpath adj hwf s t, ?_⟩
  rw [wouldCreateCycle_iff_gpath adj hwf s t]
  exact (insert_cycle_iff_ancestor adj hacyc s t hne).symm

/-- Witness for C7 at the concrete graph a → b with candidate edge
b → a. -/
theorem wouldCreateCycle_ancestor_cycle_spec_witness :
    (wouldCreateCycle adjPair "b" "a" = true ↔ GPath adjPair "a" "b") ∧
    (wouldCreateCycle adjPair "b" "a" = true ↔
      ∃ v, GPath (insertEdge adjPair "b" "a") v v) :=
  wouldCreateCycle_ancestor_cycle_spec adjPair "b" "a" (by decide) adjPair_cycleFree
    adjPair_not_edge_ba (by decide)

/-- Counterexample to C7 as frozen (without source ≠ target): on the
cycle-free one-node graph with the absent candidate edge (a, a),
wouldCreateCycle is false although inserting a → a closes a cycle, so
the claimed equivalence fails at this input. -/
theorem wouldCreateCycle_selfloop_counterexample :
    WFAdj adjSingle ∧ CycleFree adjSingle ∧ ¬ EdgeIn adjSingle "a" "a" ∧
    wouldCreateCycle adjSingle "a" "a" = false ∧
    ¬ (wouldCreateCycle adjSingle "a" "a" = true ↔
        ∃ v, GPath (insertEdge adjSingle "a" "a") v v) := by
  have hwcc : wouldCreateCycle adjSingle "a" "a" = false := by
    cases h : wouldCreateCycle adjSingle "a" "a" with
    | false => rfl
    | true =>
      exact absurd ((wouldCreateCycle_iff_gpath adjSingle (by decide) "a" "a").mp h)
        (adjSingle_cycleFree "a")
  have hcycle : ∃ v, GPath (insertEdge adjSingle "a" "a") v v := by
    refine ⟨"a", GPath.base ?_⟩
    exact (EdgeIn_insertEdge adjSingle "a" "a" "a" "a").mpr (Or.inr ⟨rfl, rfl⟩)
  refine ⟨by decide, adjSingle_cycleFree, adjSingle_no_edge "a" "a", hwcc, ?_⟩
  intro hiff
  rw [hiff.mpr hcycle] at hwcc
  cases hwcc

/-- C10: wouldCreateCycle never reports a candidate self-loop: on a
well-formed acyclic adjacency list containing s, wouldCreateCycle
(adjList, s, s) is false, so self-loops must be rejected by a separate
check. -/
theorem wouldCreateCycle_self_false (adj : Adj) (s : String) (hwf : WFAdj adj)
    (hacyc : CycleFree adj) (hs : s ∈ adjKeys adj) :
    wouldCreateCycle adj s s = false := by
  cases h : wouldCreateCycle adj s s with
  | false => rfl
  | true => exact absurd ((wouldCreateCycle_iff_gpath adj hwf s s).mp h) (hacyc s)

/-- Witness for C10 at the concrete graph a → b. -/
theorem wouldCreateCycle_self_false_witness :
    wouldCreateCycle adjPair "a" "a" = false :=
  wouldCreateCycle_self_false adjPair "a" (by decide) adjPair_cycleFree (by decide)

/-! ## The merge engine (server/src/services/merge.js)

Mongoose documents are embedded as records, each collection as a list
inside a state record DB; find/save/update calls become list
operations on that state.  The fields modelled are the fields this
subsystem reads and writes.  The full Operation model is absent from
the repository (only its callers exist), so its server-sequence
counter, status transition and previousState snapshot are modelled
from the specification where noted. -/

structure Pos where
  x : Int
  y : Int
deriving DecidableEq

structure NodeRec where
  nodeId : String
  mapId : String
  contentText : String
  contentType : String
  position : Pos
  createdBy : Option String
  lastModifiedBy : Option String
  vectorClock : VC
  version : Nat
  isDeleted : Bool
  style : Option String
deriving DecidableEq

structure EdgeRec where
  edgeId : String
  mapId : String
  sourceNodeId : String
  targetNodeId : String
  createdBy : Option String
  lastModifiedBy : Option String
  vectorClock : VC
  isDeleted : Bool
  label : Option String
  style : Option String
deriving DecidableEq

structure MapStats where
  nodeCount : Int
  edgeCount : Int
deriving DecidableEq

structure MapRec where
  mapId : String
  vectorClock : VC
  version : Nat
  stats : MapStats
  isDeleted : Bool
deriving DecidableEq

/-- The previous-state snapshot a log record may carry for reversal;
each field optional, matching a partial JavaScript object.  Modelled
from the spec: the Operation model is not in the repository. -/
structure PrevState where
  contentText : Option String
  position : Option Pos
  style : Option String
  vectorClock : Option VC
  label : Option String
  isDeletedPrev : Option Bool
deriving DecidableEq

/-- An operation-log record with the fields merge.js writes, plus the
`sequence` field the catch-up controller reads (never written by
merge, hence optional) and the status/previousState fields rollback.js
reads (status transition modelled from the spec). -/
structure OperationRec where
  operationId : String
  mapId : String
  type : String
  entityId : Option String
  entityType : String
  vectorClock : VC
  clientId : String
  sessionId : String
  userId : String
  clientSequence : Nat
  serverSequence : Nat
  sequence : Option Nat
  status : String
  previousState : Option PrevState
deriving DecidableEq

/-- The persisted state: one list per collection, the per-map sequence
counters (modelled from the spec for the missing Operation model), a
clock for Date.now(), and a fault-injection flag for the persistence
layer at the log-append step. -/
structure DB where
  maps : List MapRec
  nodes : List NodeRec
  edges : List EdgeRec
  ops : List OperationRec
  nextSeq : List (String × Nat)
  nowMs : Nat
  opSaveFails : Bool
deriving DecidableEq

structure OpNodeData where
  id : Option String
  label : Option String
  text : Option String
  position : Option Pos
deriving DecidableEq

structure OpEdgeData where
  id : Option String
  fromId : String
  toId : String
deriving DecidableEq

/-- An inbound operation as merge.js receives it. -/
structure OpIn where
  type : String
  mapId : String
  operationId : Option String
  nodeId : Option String
  node : Option OpNodeData
  edge : Option OpEdgeData
  vc : VC
  clientId : Option String
  sessionId : Option String
  userId : Option String
deriving DecidableEq

inductive Applied where
  | node (n : NodeRec)
  | edge (e : EdgeRec)
deriving DecidableEq

structure ApplyRes where
  success : Bool
  reason : Option String
  entity : Option Applied
deriving DecidableEq

structure MergeRes where
  valid : Bool
  reason : Option String
  errorMsg : Option String
  entity : Option Applied
  operationSeq : Option Nat
deriving DecidableEq

/-- Mutate the first list element satisfying the predicate, as a
mongoose save/findOneAndUpdate of the found document does. -/
def updateFirst {α : Type} (p : α → Bool) (f : α → α) : List α → List α
  | [] => []
  | x :: xs => if p x then f x :: xs else x :: updateFirst p f xs

/-- merge.js compareVectorClocks: 1 when the incoming clock is newer,
-1 when strictly older, 0 otherwise (concurrent or equal). -/
def compareVectorClocks (currentVC incomingVC : VC) : Int :=
  let users := vcAllKeys currentVC incomingVC
  let isGreater := users.any (fun u => vcGet currentVC u < vcGet incomingVC u)
  let isLess := users.any (fun u => vcGet incomingVC u < vcGet currentVC u)
  if isGreater && !isLess then 1
  else if isLess && !isGreater then -1
  else 0

/-- merge.js applyNodeOperation.  Node.softDelete is absent from the
repository; modelled from the spec: it sets the soft-delete flag and
records the last modifier.  A missing op.node is a TypeError; a
missing node id fails mongoose required-field validation at save. -/
def applyNodeOperation (db : DB) (mapId : String) (op : OpIn) :
    Except String (ApplyRes × DB) :=
  if op.type == "addNode" || op.type == "NODE_CREATE" then
    match op.node with
    | none => .error "TypeError: op.node is undefined"
    | some nd =>
      let nid := jsOrStr nd.id op.nodeId
      if !(jsTruthy nid) then .error "ValidationError: nodeId required"
      else
        let newNode : NodeRec := {
          nodeId := nid.getD "",
          mapId := mapId,
          contentText := (jsOrStr (jsOrStr nd.label nd.text) (some "New Node")).getD "",
          contentType := "text",
          position := nd.position.getD ⟨0, 0⟩,
          createdBy := jsOrStr op.userId op.clientId,
          lastModifiedBy := jsOrStr op.userId op.clientId,
          vectorClock := op.vc,
          version := 1,
          isDeleted := false,
          style := none }
        .ok ({success := true, reason := none, entity := some (.node newNode)},
             {db with nodes := db.nodes ++ [newNode]})
  else if op.type == "updateNode" || op.type == "NODE_UPDATE" then
    match op.node with
    | none => .error "TypeError: op.node is undefined"
    | some nd =>
      let nid := (jsOrStr nd.id op.nodeId).getD ""
      match db.nodes.find? (fun n => n.mapId == mapId && n.nodeId == nid && !n.isDeleted) with
      | none => .ok ({success := false, reason := some "Node not found", entity := none}, db)
      | some nodeToUpdate =>
        let comparison := compareVectorClocks nodeToUpdate.vectorClock op.vc
        if comparison == -1 then
          .ok ({success := false, reason := some "Outdated edit (older vector clock)",
                entity := none}, db)
        else
          let t1 := if jsTruthy nd.label then nd.label.getD nodeToUpdate.contentText
                    else nodeToUpdate.contentText
          let t2 := if jsTruthy nd.text then nd.text.getD t1 else t1
          let pos2 := match nd.position with
            | some p => p
            | none => nodeToUpdate.position
          let updated := {nodeToUpdate with
            contentText := t2,
            position := pos2,
            vectorClock := VectorClockService.merge nodeToUpdate.vectorClock op.vc,
            lastModifiedBy := jsOrStr op.userId op.clientId,
            version := nodeToUpdate.version + 1}
          let nodes2 := updateFirst
            (fun n => n.mapId == mapId && n.nodeId == nid && !n.isDeleted)
            (fun _ => updated) db.nodes
          .ok ({success := true, reason := none, entity := some (.node updated)},
               {db with nodes := nodes2})
  else if op.type == "deleteNode" || op.type == "NODE_DELETE" then
    let nid := (jsOrStr op.nodeId (op.node.bind (fun nd => nd.id))).getD ""
    match db.nodes.find? (fun n => n.mapId == mapId && n.nodeId == nid && !n.isDeleted) with
    | none => .ok ({success := false, reason := some "Node not found", entity := none}, db)
    | some nodeToDelete =>
      let lm := jsOrStr op.userId op.clientId
      let deleted := {nodeToDelete with isDeleted := true, lastModifiedBy := lm}
      let nodes2 := updateFirst
        (fun n => n.mapId == mapId && n.nodeId == nid && !n.isDeleted)
        (fun _ => deleted) db.nodes
      let db1 := {db with nodes := nodes2}
      let db2 := {db1 with edges := db1.edges.map (fun e =>
        if e.mapId == mapId &&
            (e.sourceNodeId == nodeToDelete.nodeId || e.targetNodeId == nodeToDelete.nodeId) &&
            !e.isDeleted then
          {e with isDeleted := true, lastModifiedBy := lm}
        else e)}
      .ok ({success := true, reason := none, entity := some (.node deleted)}, db2)
  else
    .ok ({success := false, reason := some ("Unknown operation type: " ++ op.type),
          entity := none}, db)

/-- merge.js applyEdgeOperation: addEdge only checks that both
endpoint nodes exist and are active before inserting the edge; no
self-loop, duplicate-pair or cycle check is performed here. -/
def applyEdgeOperation (db : DB) (mapId : String) (op : OpIn) :
    Except String (ApplyRes × DB) :=
  if op.type == "addEdge" || op.type == "EDGE_CREATE" then
    match op.edge with
    | none => .error "TypeError: op.edge is undefined"
    | some ed =>
      let sourceExists := db.nodes.any
        (fun n => n.mapId == mapId && n.nodeId == ed.fromId && !n.isDeleted)
      let targetExists := db.nodes.any
        (fun n => n.mapId == mapId && n.nodeId == ed.toId && !n.isDeleted)
      if !sourceExists || !targetExists then
        .ok ({success := false, reason := some "Source or target node not found",
              entity := none}, db)
      else
        let newEdge : EdgeRec := {
          edgeId := (jsOrStr ed.id (some ("edge_" ++ toString db.nowMs))).getD "",
          mapId := mapId,
          sourceNodeId := ed.fromId,
          targetNodeId := ed.toId,
          createdBy := jsOrStr op.userId op.clientId,
          lastModifiedBy := jsOrStr op.userId op.clientId,
          vectorClock := op.vc,
          isDeleted := false,
          label := none,
          style := none }
        .ok ({success := true, reason := none, entity := some (.edge newEdge)},
             {db with edges := db.edges ++ [newEdge]})
  else if op.type == "deleteEdge" || op.type == "EDGE_DELETE" then
    match op.edge with
    | none => .error "TypeError: op.edge is undefined"
    | some ed =>
      match db.edges.find? (fun e => e.mapId == mapId && e.sourceNodeId == ed.fromId &&
          e.targetNodeId == ed.toId && !e.isDeleted) with
      | none => .ok ({success := false, reason := some "Edge not found", entity := none}, db)
      | some edgeToDelete =>
        let lm := jsOrStr op.userId op.clientId
        let deleted := {edgeToDelete with isDeleted := true, lastModifiedBy := lm}
        let edges2 := updateFirst
          (fun e => e.mapId == mapId && e.sourceNodeId == ed.fromId &&
            e.targetNodeId == ed.toId && !e.isDeleted)
          (fun _ => deleted) db.edges
        .ok ({success := true, reason := none, entity := some (.edge deleted)},
             {db with edges := edges2})
  else
    .ok ({success := false, reason := some ("Unknown operation type: " ++ op.type),
          entity := none}, db)

/-- Modelled from the spec: Operation.getNextServerSequence is part of
the Operation model missing from the repository; per §4.4 it is an
atomic per-map counter returning strictly increasing values. -/
def getNextServerSequence (db : DB) (mapId : String) : Nat × DB :=
  let cur := ((db.nextSeq.find? (fun p => p.1 == mapId)).map Prod.snd).getD 0
  (cur + 1, {db with nextSeq := vcSet db.nextSeq mapId (cur + 1)})

/-- merge.js lines 248-253 inline the same per-key max merge over
plain-object clocks. -/
def mergeClocks (currentVC incomingVC : VC) : VC :=
  incomingVC.foldl
    (fun merged kv => vcSet merged kv.1 (max (vcGet merged kv.1) kv.2)) currentVC

/-- Continuation of merge after the dispatch: reject on apply failure,
otherwise merge the map clock, bump version, adjust stats by the
case-sensitive includes tests, save the map, draw the next server
sequence and append the log record.  A persistence failure at the
append surfaces as an exception carrying the state already saved. -/
def mergeApply (db : DB) (op : OpIn) (map : MapRec) :
    Except String (ApplyRes × DB) → Except (String × DB) (MergeRes × DB)
  | .error m => .error (m, db)
  | .ok (result, db1) =>
    if !result.success then
      .ok ({valid := false, reason := result.reason, errorMsg := none, entity := none,
            operationSeq := none}, db1)
    else
      let mergedVC := mergeClocks map.vectorClock op.vc
      let map2 := {map with vectorClock := mergedVC, version := map.version + 1}
      let stats := map2.stats
      let map3 :=
        if strContains op.type "Node" && strContains op.type "CREATE" then
          {map2 with stats := {stats with nodeCount := stats.nodeCount + 1}}
        else if strContains op.type "Node" && strContains op.type "DELETE" then
          {map2 with stats := {stats with nodeCount := stats.nodeCount - 1}}
        else if strContains op.type "Edge" && strContains op.type "CREATE" then
          {map2 with stats := {stats with edgeCount := stats.edgeCount + 1}}
        else if strContains op.type "Edge" && strContains op.type "DELETE" then
          {map2 with stats := {stats with edgeCount := stats.edgeCount - 1}}
        else map2
      let maps2 := updateFirst
        (fun m => m.mapId == op.mapId && !m.isDeleted) (fun _ => map3) db1.maps
      let db2 := {db1 with maps := maps2}
      let seqdb := getNextServerSequence db2 op.mapId
      let serverSequence := seqdb.1
      let db3 := seqdb.2
      let operation : OperationRec := {
        operationId := (jsOrStr op.operationId (some ("op_" ++ toString db.nowMs))).getD "",
        mapId := op.mapId,
        type := op.type,
        entityId := match result.entity with
          | some (.node n) => some n.nodeId
          | some (.edge e) => some e.edgeId
          | none => none,
        entityType := if strContains op.type "Node" then "node" else "edge",
        vectorClock := op.vc,
        clientId := (jsOrStr op.clientId (some "unknown")).getD "unknown",
        sessionId := (jsOrStr op.sessionId (some "unknown")).getD "unknown",
        userId := (jsOrStr (jsOrStr op.userId op.clientId) (some "unknown")).getD "unknown",
        clientSequence := match op.clientId with
          | some c => vcGet op.vc c
          | none => 0,
        serverSequence := serverSequence,
        sequence := none,
        status := "applied",
        previousState := none }
      if db3.opSaveFails then .error ("storage failure", db3)
      else .ok ({valid := true, reason := none, errorMsg := none, entity := result.entity,
                 operationSeq := some serverSequence},
                {db3 with ops := db3.ops ++ [operation]})

/-- The body of merge.js inside its try block: load the map, compare
clocks at map level, dispatch by substring tests on the type, then
commit. -/
def mergeBody (db : DB) (op : OpIn) : Except (String × DB) (MergeRes × DB) :=
  match db.maps.find? (fun m => m.mapId == op.mapId && !m.isDeleted) with
  | none => .ok ({valid := false, reason := some "Map not found", errorMsg := none,
                  entity := none, operationSeq := none}, db)
  | some map =>
    let comparison := compareVectorClocks map.vectorClock op.vc
    if comparison == -1 then
      .ok ({valid := false, reason := some "Outdated edit (older vector clock)",
            errorMsg := none, entity := none, operationSeq := none}, db)
    else if strContains op.type "Node" || strContains op.type "node" then
      mergeApply db op map (applyNodeOperation db op.mapId op)
    else if strContains op.type "Edge" || strContains op.type "edge" then
      mergeApply db op map (applyEdgeOperation db op.mapId op)
    else
      .ok ({valid := false, reason := some "Unknown operation category", errorMsg := none,
            entity := none, operationSeq := none}, db)

/-- merge.js merge: the body runs inside try/catch; any exception is
caught and returned to the caller as an ordinary result value with
reason "Merge failed" and the error message, never rethrown. -/
def merge (db : DB) (op : OpIn) : Except (String × DB) (MergeRes × DB) :=
  match mergeBody db op with
  | .ok r => .ok r
  | .error (m, db2) =>
    .ok ({valid := false, reason := some "Merge failed", errorMsg := some m, entity := none,
          operationSeq := none}, db2)

/-! ## Operation catch-up query (operationController.getOperationsSince) -/

/-- The Mongo sort key on the `sequence` field; documents missing the
field sort before any number. -/
def seqKey (o : OperationRec) : Int :=
  match o.sequence with
  | some s => (s : Int)
  | none => -1

def insertBySeq (x : OperationRec) : List OperationRec → List OperationRec
  | [] => [x]
  | y :: ys => if seqKey x ≤ seqKey y then x :: y :: ys else y :: insertBySeq x ys

def sortBySeqAsc (l : List OperationRec) : List OperationRec :=
  l.foldr insertBySeq []

/-- operationController.getOperationsSince: find the operations of the
map whose `sequence` field is greater than the given number, sorted by
`sequence` ascending.  A Mongo $gt never matches a document missing
the field, and merge never writes `sequence` (it writes
serverSequence). -/
def getOperationsSince (db : DB) (mapId : String) (sequence : Int) : List OperationRec :=
  sortBySeqAsc (db.ops.filter (fun o => o.mapId == mapId &&
    (match o.sequence with
     | some s => decide (sequence < (s : Int))
     | none => false)))

/-! ## Rollback engine (server/src/services/rollback.js) -/

structure RbRes where
  success : Bool
  reason : Option String
  errorMsg : Option String
deriving DecidableEq

/-- rollback.js rollbackNodeOperation: reverse one node operation by
type, restoring from the previousState snapshot; absent snapshot
fields are undefined in JavaScript and are stripped from the update. -/
def rollbackNodeList (nodes : List NodeRec) (operation : OperationRec) : List NodeRec :=
  let eid := operation.entityId.getD ""
  let onNode := fun (f : NodeRec → NodeRec) =>
    updateFirst (fun n => n.mapId == operation.mapId && n.nodeId == eid) f nodes
  if operation.type == "NODE_CREATE" || operation.type == "addNode" then
    onNode (fun n => {n with isDeleted := true})
  else if operation.type == "NODE_UPDATE" || operation.type == "updateNode" then
    match operation.previousState with
    | none => nodes
    | some ps =>
      onNode (fun n => {n with
        contentText := ps.contentText.getD n.contentText,
        position := ps.position.getD n.position,
        style := match ps.style with
          | some v => some v
          | none => n.style,
        vectorClock := ps.vectorClock.getD n.vectorClock})
  else if operation.type == "NODE_DELETE" || operation.type == "deleteNode" then
    match operation.previousState with
    | none => nodes
    | some ps =>
      onNode (fun n => {n with
        isDeleted := ps.isDeletedPrev.getD false,
        contentText := ps.contentText.getD n.contentText,
        position := ps.position.getD n.position,
        style := match ps.style with
          | some v => some v
          | none => n.style,
        vectorClock := ps.vectorClock.getD n.vectorClock})
  else if operation.type == "NODE_MOVE" then
    match operation.previousState with
    | none => nodes
    | some ps =>
      match ps.position with
      | none => nodes
      | some pos => onNode (fun n => {n with position := pos})
  else nodes

/-- rollback.js rollbackNodeOperation: reverse one node operation by
type, restoring from the previousState snapshot; absent snapshot
fields are undefined in JavaScript and are stripped from the update.
Only node documents are written. -/
def rollbackNodeOperation (db : DB) (operation : OperationRec) : DB :=
  {db with nodes := rollbackNodeList db.nodes operation}

def rollbackEdgeList (edges : List EdgeRec) (operation : OperationRec) : List EdgeRec :=
  let eid := operation.entityId.getD ""
  let onEdge := fun (f : EdgeRec → EdgeRec) =>
    updateFirst (fun e => e.mapId == operation.mapId && e.edgeId == eid) f edges
  if operation.type == "EDGE_CREATE" || operation.type == "addEdge" then
    onEdge (fun e => {e with isDeleted := true})
  else if operation.type == "EDGE_UPDATE" then
    match operation.previousState with
    | none => edges
    | some ps =>
      onEdge (fun e => {e with
        label := match ps.label with
          | some v => some v
          | none => e.label,
        style := match ps.style with
          | some v => some v
          | none => e.style})
  else if operation.type == "EDGE_DELETE" || operation.type == "deleteEdge" then
    match operation.previousState with
    | none => edges
    | some ps =>
      onEdge (fun e => {e with
        isDeleted := ps.isDeletedPrev.getD false,
        label := match ps.label with
          | some v => some v
          | none => e.label,
        style := match ps.style with
          | some v => some v
          | none => e.style})
  else edges

/-- rollback.js rollbackEdgeOperation; only edge documents are
written. -/
def rollbackEdgeOperation (db : DB) (operation : OperationRec) : DB :=
  {db with edges := rollbackEdgeList db.edges operation}

/-- The inverse stats adjustment of rollback.js: decrement for CREATE
types, increment for DELETE types (substring tests, case sensitive),
clamped at zero for decrements; map version and vector clock are not
touched. -/
def rbStats (db : DB) (operation : OperationRec) : DB :=
  match db.maps.find? (fun m => m.mapId == operation.mapId) with
  | none => db
  | some map =>
    let st := map.stats
    let st2 :=
      if strContains operation.type "CREATE" then
        if operation.entityType == "node" then
          {st with nodeCount := max 0 (st.nodeCount - 1)}
        else
          {st with edgeCount := max 0 (st.edgeCount - 1)}
      else if strContains operation.type "DELETE" then
        if operation.entityType == "node" then
          {st with nodeCount := st.nodeCount + 1}
        else
          {st with edgeCount := st.edgeCount + 1}
      else st
    let maps2 := updateFirst (fun m => m.mapId == operation.mapId)
      (fun m => {m with stats := st2}) db.maps
    {db with maps := maps2}

/-- The success path of rollback.js after the guards: reverse the
entity, mark the operation rolled_back (status transition of the
missing Operation model, modelled from the spec), adjust stats
inversely. -/
def rbFinal (db : DB) (operationId : String) (operation : OperationRec) : DB :=
  let db2 := if operation.entityType == "node" then rollbackNodeOperation db operation
             else rollbackEdgeOperation db operation
  let ops2 := updateFirst (fun o => o.operationId == operationId)
    (fun o => {o with status := "rolled_back"}) db2.ops
  rbStats {db2 with ops := ops2} operation

/-- rollback.js rollback, on the operationId lookup path of the claims
(the raw-data branch without an id returns an instruction object and
is outside this development).  Refuses an operation already rolled
back or of unknown entity type; otherwise runs the success path. -/
def rollback (db : DB) (operationId : String) : RbRes × DB :=
  match db.ops.find? (fun o => o.operationId == operationId) with
  | none => ({success := false, reason := some "Operation not found", errorMsg := none}, db)
  | some operation =>
    if operation.status == "rolled_back" then
      ({success := false, reason := some "Operation already rolled back", errorMsg := none},
       db)
    else if !(operation.entityType == "node" || operation.entityType == "edge") then
      ({success := false, reason := some "Rollback failed",
        errorMsg := some ("Unknown entity type: " ++ operation.entityType)}, db)
    else
      ({success := true, reason := none, errorMsg := none}, rbFinal db operationId operation)

/-! ## Projections used by the claim statements -/

def mergeValid : Except (String × DB) (MergeRes × DB) → Bool
  | .ok (r, _) => r.valid
  | .error _ => false

def mergeReason : Except (String × DB) (MergeRes × DB) → Option String
  | .ok (r, _) => r.reason
  | .error _ => none

def mergeDB : Except (String × DB) (MergeRes × DB) → DB
  | .ok (_, db) => db
  | .error (_, db) => db

def isExceptError {ε α : Type} : Except ε α → Bool
  | .error _ => true
  | .ok _ => false

def activeNodeCount (db : DB) (mapId : String) : Nat :=
  (db.nodes.filter (fun n => n.mapId == mapId && !n.isDeleted)).length

def activeEdgeCount (db : DB) (mapId : String) : Nat :=
  (db.edges.filter (fun e => e.mapId == mapId && !e.isDeleted)).length

def mapStatsOf (db : DB) (mapId : String) : Option MapStats :=
  (db.maps.find? (fun m => m.mapId == mapId)).map (fun m => m.stats)

def mapClockOf (db : DB) (mapId : String) : Option VC :=
  (db.maps.find? (fun m => m.mapId == mapId)).map (fun m => m.vectorClock)

def nodeTextOf (db : DB) (mapId nodeId : String) : Option String :=
  (db.nodes.find? (fun n => n.mapId == mapId && n.nodeId == nodeId && !n.isDeleted)).map
    (fun n => n.contentText)

/-! ## Concrete scenarios for the merge-engine claims -/

def map0 : MapRec :=
  {mapId := "m", vectorClock := [], version := 0,
   stats := {nodeCount := 0, edgeCount := 0}, isDeleted := false}

def dbBase : DB :=
  {maps := [map0], nodes := [], edges := [], ops := [], nextSeq := [], nowMs := 0,
   opSaveFails := false}

def nodeOf (nid : String) : NodeRec :=
  {nodeId := nid, mapId := "m", contentText := "t", contentType := "text",
   position := ⟨0, 0⟩, createdBy := some "c", lastModifiedBy := some "c",
   vectorClock := [], version := 1, isDeleted := false, style := none}

/-- C1 input: a map holding one active node a, and an ADD_EDGE
operation a → a (a self-loop candidate). -/
def dbC1 : DB := {dbBase with nodes := [nodeOf "a"]}

def opC1 : OpIn :=
  {type := "addEdge", mapId := "m", operationId := some "opE", nodeId := none,
   node := none, edge := some {id := some "e1", fromId := "a", toId := "a"},
   vc := [], clientId := some "c", sessionId := none, userId := none}

/-- C1: merge accepts the self-loop ADD_EDGE and commits an active edge
whose source equals its target; the claimed self-loop / duplicate /
cycle rejection does not happen in merge (the GraphValidator holding
those checks is never invoked by it). -/
theorem merge_addEdge_selfLoop_accepted :
    mergeValid (merge dbC1 opC1) = true ∧
    (mergeDB (merge dbC1 opC1)).edges.any
      (fun e => e.sourceNodeId == e.targetNodeId && !e.isDeleted) = true := by
  constructor
  · decide
  · decide

/-- C2 input: the same ADD_NODE operation (same id, same clock) merged
twice into a fresh map. -/
def opC2 : OpIn :=
  {type := "addNode", mapId := "m", operationId := some "op1", nodeId := none,
   node := some {id := some "n1", label := some "N", text := none, position := none},
   edge := none, vc := [("X", 1)], clientId := some "X", sessionId := none, userId := none}

/-- C2: merging the same ADD_NODE twice is accepted both times, and the
second acceptance commits a second active node record with the same
node id; the claimed already_exists / stale rejection does not happen
(applyNodeOperation performs no existence check). -/
theorem merge_addNode_duplicate_accepted :
    mergeValid (merge dbBase opC2) = true ∧
    mergeValid (merge (mergeDB (merge dbBase opC2)) opC2) = true ∧
    ((mergeDB (merge (mergeDB (merge dbBase opC2)) opC2)).nodes.filter
      (fun n => n.nodeId == "n1" && !n.isDeleted)).length = 2 := by
  refine ⟨by decide, by decide, by decide⟩

/-- C3 input: a map with node n at clock {} and two concurrent
UPDATE_NODE operations, client X at {X:1} writing label A and client Y
at {Y:1} writing label B. -/
def dbC3 : DB := {dbBase with nodes := [nodeOf "n"]}

def opC3X : OpIn :=
  {type := "updateNode", mapId := "m", operationId := some "opX", nodeId := none,
   node := some {id := some "n", label := some "A", text := none, position := none},
   edge := none, vc := [("X", 1)], clientId := some "X", sessionId := none, userId := none}

def opC3Y : OpIn :=
  {type := "updateNode", mapId := "m", operationId := some "opY", nodeId := none,
   node := some {id := some "n", label := some "B", text := none, position := none},
   edge := none, vc := [("Y", 1)], clientId := some "Y", sessionId := none, userId := none}

/-- C3: in either arrival order both concurrent updates are accepted
(ties favor the incoming write), the final label is the second-applied
operation's value, and the map clock ends as the mapping
{X:1, Y:1}. -/
theorem merge_concurrent_update_lww_scenario :
    (mergeValid (merge dbC3 opC3X) = true ∧
     mergeValid (merge (mergeDB (merge dbC3 opC3X)) opC3Y) = true ∧
     nodeTextOf (mergeDB (merge (mergeDB (merge dbC3 opC3X)) opC3Y)) "m" "n" = some "B" ∧
     mapClockOf (mergeDB (merge (mergeDB (merge dbC3 opC3X)) opC3Y)) "m" =
       some [("X", 1), ("Y", 1)]) ∧
    (mergeValid (merge dbC3 opC3Y) = true ∧
     mergeValid (merge (mergeDB (merge dbC3 opC3Y)) opC3X) = true ∧
     nodeTextOf (mergeDB (merge (mergeDB (merge dbC3 opC3Y)) opC3X)) "m" "n" = some "A" ∧
     mapClockOf (mergeDB (merge (mergeDB (merge dbC3 opC3Y)) opC3X)) "m" =
       some [("Y", 1), ("X", 1)]) := by
  refine ⟨⟨by decide, by decide, by decide, by decide⟩,
    ⟨by decide, by decide, by decide, by decide⟩⟩

/-- C4 inputs: an accepted addNode on a fresh map, and an accepted
deleteNode cascading over one active incident edge on a map whose
stats started in sync at (2, 1). -/
def mapC4 : MapRec := {map0 with stats := {nodeCount := 2, edgeCount := 1}}

def edgeAB : EdgeRec :=
  {edgeId := "e1", mapId := "m", sourceNodeId := "a", targetNodeId := "b",
   createdBy := some "c", lastModifiedBy := some "c", vectorClock := [],
   isDeleted := false, label := none, style := none}

def dbC4 : DB :=
  {dbBase with maps := [mapC4], nodes := [nodeOf "a", nodeOf "b"], edges := [edgeAB]}

def opC4Del : OpIn :=
  {type := "deleteNode", mapId := "m", operationId := some "opD", nodeId := some "a",
   node := none, edge := none, vc := [], clientId := some "c", sessionId := none,
   userId := none}

/-- C4: after an accepted addNode the stats still read zero nodes while
one node is active, and after an accepted deleteNode that cascades
over an incident edge the stats still read (2, 1) while the active
counts are (1, 0): the incremental updates test for the uppercase
substrings CREATE/DELETE which no accepted type name contains, and the
cascade never decrements edgeCount. -/
theorem merge_stats_not_synced :
    (mergeValid (merge dbBase opC2) = true ∧
     mapStatsOf (mergeDB (merge dbBase opC2)) "m" = some {nodeCount := 0, edgeCount := 0} ∧
     activeNodeCount (mergeDB (merge dbBase opC2)) "m" = 1) ∧
    (mergeValid (merge dbC4 opC4Del) = true ∧
     mapStatsOf (mergeDB (merge dbC4 opC4Del)) "m" = some {nodeCount := 2, edgeCount := 1} ∧
     activeNodeCount (mergeDB (merge dbC4 opC4Del)) "m" = 1 ∧
     activeEdgeCount (mergeDB (merge dbC4 opC4Del)) "m" = 0) := by
  refine ⟨⟨by decide, by decide, by decide⟩, ⟨by decide, by decide, by decide, by decide⟩⟩

/-- C5 input: the persistence layer fails at the log-append step. -/
def dbC5 : DB := {dbBase with opSaveFails := true}

/-- The state at the moment the append throws: the node and the merged
map are already saved and the sequence counter drawn. -/
def mapC5after : MapRec :=
  {mapId := "m", vectorClock := [("X", 1)], version := 1,
   stats := {nodeCount := 0, edgeCount := 0}, isDeleted := false}

def nodeC5after : NodeRec :=
  {nodeId := "n1", mapId := "m", contentText := "N", contentType := "text",
   position := ⟨0, 0⟩, createdBy := some "X", lastModifiedBy := some "X",
   vectorClock := [("X", 1)], version := 1, isDeleted := false, style := none}

def dbC5after : DB :=
  {maps := [mapC5after], nodes := [nodeC5after], edges := [], ops := [],
   nextSeq := [("m", 1)], nowMs := 0, opSaveFails := true}

/-- The caught-failure result value merge returns: valid false, reason
"Merge failed", the error message attached. -/
def mergeFailedRes (m : String) : MergeRes :=
  {valid := false, reason := some "Merge failed", errorMsg := some m, entity := none,
   operationSeq := none}

/-- C5 counterexample: with the persistence layer failing at the log
append, the failure is raised inside the body but the caller of merge
receives an ordinary result value (valid false, reason "Merge
failed"), not an exception — refuting the claim that the failure
propagates as a hard failure. -/
theorem merge_persistence_failure_counterexample :
    isExceptError (mergeBody dbC5 opC2) = true ∧
    isExceptError (merge dbC5 opC2) = false ∧
    mergeValid (merge dbC5 opC2) = false ∧
    mergeReason (merge dbC5 opC2) = some "Merge failed" := by
  refine ⟨by decide, by decide, by decide, by decide⟩

/-- C5 (amended): any exception raised inside the body of merge —
including a persistence failure while appending to the log — is caught
by its top-level try/catch and returned to the caller as an ordinary
rejection-style result value with reason "Merge failed" carrying the
error message and the state persisted so far; it never propagates as
an exception. -/
theorem merge_catches_persistence_failure (db : DB) (op : OpIn) (m : String) (d : DB)
    (h : mergeBody db op = .error (m, d)) :
    merge db op = .ok (mergeFailedRes m, d) := by
  unfold merge
  rw [h]
  rfl

/-- Witness for C5 at the concrete failing-append input. -/
theorem merge_catches_persistence_failure_witness :
    merge dbC5 opC2 = .ok (mergeFailedRes "storage failure", dbC5after) :=
  merge_catches_persistence_failure dbC5 opC2 "storage failure" dbC5after (by rfl)

/-- C6 inputs: ten accepted addNode operations against a fresh map. -/
def mkAddOp (i : Nat) : OpIn :=
  {type := "addNode", mapId := "m", operationId := some ("op" ++ toString i),
   nodeId := none,
   node := some {id := some ("n" ++ toString i), label := some "N", text := none, position := none},
   edge := none, vc := [], clientId := some "c", sessionId := none, userId := none}

def mergeMany (db : DB) (ops : List OpIn) : List Bool × DB :=
  ops.foldl
    (fun acc op => (acc.1 ++ [mergeValid (merge acc.2 op)], mergeDB (merge acc.2 op)))
    ([], db)

def c6run : List Bool × DB := mergeMany dbBase ((List.range 10).map (fun i => mkAddOp (i + 1)))

/-- C6: after ten accepted operations logged with serverSequence 1..10
(and no `sequence` field), getOperationsSince(m, 5) returns the empty
list instead of the operations with sequence 6..10: the catch-up query
filters on a field merge never writes. -/
theorem getOperationsSince_empty_after_merges :
    c6run.1 = List.replicate 10 true ∧
    c6run.2.ops.map (fun o => o.serverSequence) = [1, 2, 3, 4, 5, 6, 7, 8, 9, 10] ∧
    c6run.2.ops.map (fun o => o.sequence) = List.replicate 10 none ∧
    getOperationsSince c6run.2 "m" 5 = [] := by
  refine ⟨by decide, by decide, by decide, by decide⟩

/-! ## C9: rollback leaves the map version and clock untouched -/

theorem rollbackNodeOperation_maps (db : DB) (op : OperationRec) :
    (rollbackNodeOperation db op).maps = db.maps := rfl

theorem rollbackNodeOperation_ops (db : DB) (op : OperationRec) :
    (rollbackNodeOperation db op).ops = db.ops := rfl

theorem rollbackEdgeOperation_maps (db : DB) (op : OperationRec) :
    (rollbackEdgeOperation db op).maps = db.maps := rfl

theorem rollbackEdgeOperation_ops (db : DB) (op : OperationRec) :
    (rollbackEdgeOperation db op).ops = db.ops := rfl

theorem map_updateFirst_eq {α β : Type} (p : α → Bool) (f : α → α) (g : α → β)
    (hg : ∀ x, g (f x) = g x) : ∀ l : List α, (updateFirst p f l).map g = l.map g := by
  intro l
  induction l with
  | nil => rfl
  | cons x xs ih =>
    unfold updateFirst
    by_cases h : p x = true
    · rw [if_pos h, List.map_cons, List.map_cons, hg x]
    · rw [if_neg h, List.map_cons, List.map_cons, ih]

theorem find?_updateFirst {α : Type} (p : α → Bool) (f : α → α) (l : List α) (m : α)
    (hfind : l.find? p = some m) (hpf : p (f m) = true) :
    (updateFirst p f l).find? p = some (f m) := by
  induction l with
  | nil => simp at hfind
  | cons x xs ih =>
    unfold updateFirst
    by_cases h : p x = true
    · rw [if_pos h]
      have hm : m = x := by
        rw [List.find?_cons_of_pos _ h] at hfind
        injection hfind with hh
        exact hh.symm
      subst hm
      exact List.find?_cons_of_pos _ hpf
    · rw [if_neg h]
      have hfind' : xs.find? p = some m := by
        rw [List.find?_cons_of_neg _ h] at hfind
        exact hfind
      rw [List.find?_cons_of_neg _ h]
      exact ih hfind'

theorem rbStats_maps_proj (db : DB) (op : OperationRec) :
    (rbStats db op).maps.map (fun m => (m.mapId, m.version, m.vectorClock)) =
      db.maps.map (fun m => (m.mapId, m.version, m.vectorClock)) := by
  unfold rbStats
  cases hfind : db.maps.find? (fun m => m.mapId == op.mapId) with
  | none => rfl
  | some map =>
    apply map_updateFirst_eq
    intro x
    rfl

theorem rbStats_ops (db : DB) (op : OperationRec) : (rbStats db op).ops = db.ops := by
  unfold rbStats
  cases hfind : db.maps.find? (fun m => m.mapId == op.mapId) with
  | none => rfl
  | some map => rfl

theorem rbFinal_maps_proj (db : DB) (opId : String) (op : OperationRec) :
    (rbFinal db opId op).maps.map (fun m => (m.mapId, m.version, m.vectorClock)) =
      db.maps.map (fun m => (m.mapId, m.version, m.vectorClock)) := by
  unfold rbFinal
  rw [rbStats_maps_proj]
  show (if op.entityType == "node" then rollbackNodeOperation db op
    else rollbackEdgeOperation db op).maps.map _ = _
  split
  · rw [rollbackNodeOperation_maps]
  · rw [rollbackEdgeOperation_maps]

theorem rbFinal_status (db : DB) (opId : String) (op : OperationRec)
    (hfind : db.ops.find? (fun o => o.operationId == opId) = some op) :
    ((rbFinal db opId op).ops.find? (fun o => o.operationId == opId)).map
      (fun o => o.status) = some "rolled_back" := by
  unfold rbFinal
  rw [rbStats_ops]
  show ((updateFirst (fun o => o.operationId == opId) (fun o => {o with status := "rolled_back"})
    (if op.entityType == "node" then rollbackNodeOperation db op
     else rollbackEdgeOperation db op).ops).find? (fun o => o.operationId == opId)).map
      (fun o => o.status) = some "rolled_back"
  have hops : (if op.entityType == "node" then rollbackNodeOperation db op
      else rollbackEdgeOperation db op).ops = db.ops := by
    split
    · exact rollbackNodeOperation_ops db op
    · exact rollbackEdgeOperation_ops db op
  rw [hops]
  have hp := List.find?_some hfind
  rw [find?_updateFirst _ _ db.ops op hfind hp]
  rfl

theorem rollback_cases (db : DB) (opId : String) :
    (rollback db opId).1.success = false ∨
    ∃ op, db.ops.find? (fun o => o.operationId == opId) = some op ∧
      rollback db opId =
        ({success := true, reason := none, errorMsg := none}, rbFinal db opId op) := by
  unfold rollback
  split
  · exact Or.inl rfl
  · rename_i op hsome
    by_cases hst : (op.status == "rolled_back") = true
    · rw [if_pos hst]
      exact Or.inl rfl
    · rw [if_neg hst]
      by_cases het : (!(op.entityType == "node" || op.entityType == "edge")) = true
      · rw [if_pos het]
        exact Or.inl rfl
      · rw [if_neg het]
        exact Or.inr ⟨op, hsome, rfl⟩

/-- C9: a successful rollback of a logged operation leaves every map's
version counter and authoritative vector clock unchanged (only stats,
the reversed entity and the operation status change), and the rolled
back operation's status becomes rolled_back. -/
theorem rollback_preserves_map_version_and_clock (db : DB) (opId : String)
    (h : (rollback db opId).1.success = true) :
    ((rollback db opId).2.maps.map (fun m => (m.mapId, m.version, m.vectorClock)) =
      db.maps.map (fun m => (m.mapId, m.version, m.vectorClock))) ∧
    (((rollback db opId).2.ops.find? (fun o => o.operationId == opId)).map
      (fun o => o.status) = some "rolled_back") := by
  rcases rollback_cases db opId with hfail | ⟨op, hfind, heq⟩
  · rw [hfail] at h
    exact absurd h (by decide)
  · rw [heq]
    exact ⟨rbFinal_maps_proj db opId op, rbFinal_status db opId op hfind⟩

/-- C9 concrete pieces for the witness: one applied addNode log record
over a populated map. -/
def opRecC9 : OperationRec :=
  {operationId := "op1", mapId := "m", type := "addNode", entityId := some "n1",
   entityType := "node", vectorClock := [("X", 1)], clientId := "X", sessionId := "s",
   userId := "X", clientSequence := 1, serverSequence := 1, sequence := none,
   status := "applied", previousState := none}

def mapC9 : MapRec :=
  {mapId := "m", vectorClock := [("X", 1)], version := 3,
   stats := {nodeCount := 1, edgeCount := 0}, isDeleted := false}

def dbC9 : DB :=
  {dbBase with maps := [mapC9], nodes := [nodeOf "n1"], ops := [opRecC9]}

/-- Witness for C9 at the concrete successful rollback. -/
theorem rollback_preserves_map_version_and_clock_witness :
    ((rollback dbC9 "op1").2.maps.map (fun m => (m.mapId, m.version, m.vectorClock)) =
      dbC9.maps.map (fun m => (m.mapId, m.version, m.vectorClock))) ∧
    (((rollback dbC9 "op1").2.ops.find? (fun o => o.operationId == "op1")).map
      (fun o => o.status) = some "rolled_back") :=
  rollback_preserves_map_version_and_clock dbC9 "op1" (by decide)
